import Mathlib

set_option maxRecDepth 4000

/-!
Verification of the nezha-dash time-series reconciliation pipeline.

This file gives a shallow embedding, in Lean 4, of the pipeline implemented in
src/components/NetworkChart.tsx and of the monitor fetch adapter/assembler
(fetchMonitor and friends).  JavaScript numbers are modelled as rationals,
null/undefined distinctions as Option or a dedicated three-state value type,
and JS Maps/Sets as insertion-ordered duplicate-free association lists.
JS Array.prototype.sort with an ascending comparator is modelled by the stable
List.insertionSort.  Math.sqrt is irrational, so functions that use it take an
abstract square-root function as a parameter; none of the proved properties
depend on its values.  Number(x.toFixed(2)) is modelled as exact rounding to
the nearest multiple of 1/100 (ties up, matching Math-style rounding of
non-negative amounts).  Date.parse results are modelled as Option values
(none for NaN), and Date.now() is passed in explicitly.
-/

/-- Value of a JS object property: the key can be absent, null, or a number. -/
inductive JVal where
  | missing : JVal
  | null : JVal
  | num : ℚ → JVal
deriving DecidableEq

/-- A monitor series as assembled by fetchMonitor (types/nezha-api NezhaMonitor).
The optional packet_loss field is absent in series built by fetchMonitor but the
chart code reads it, so it is kept here. -/
structure NezhaMonitor where
  monitor_id : ℤ
  monitor_name : String
  server_id : ℤ
  server_name : String
  created_at : List ℚ
  avg_delay : List (Option ℚ)
  packet_loss : Option (List ℚ)
deriving DecidableEq, Inhabited

/-! ## Packet-Loss Estimator (calculatePacketLoss, NetworkChart.tsx lines 28-80) -/

/-- Clamp to the interval [0, 100]: Math.max(0, Math.min(100, x)). -/
def clampLoss (x : ℚ) : ℚ := max 0 (min 100 x)

/-- Number(rate.toFixed(2)): round to the nearest multiple of 1/100. -/
def round2 (x : ℚ) : ℚ := (round (100 * x) : ℤ) / 100

/-- The loss rate computed for index i of the delay list before temporal
smoothing: the branch structure of the loop body of calculatePacketLoss.
sqrtQ abstracts Math.sqrt. -/
def rawLossRate (sqrtQ : ℚ → ℚ) (delays : List (Option ℚ)) (i : ℕ) : ℚ :=
  let n := delays.length
  let windowSize := min 10 (max 3 (n / 10))
  match delays.getD i none with
  | none => 100
  | some d =>
    if d = 0 then 100
    else if 10000 ≤ d then min 95 (60 + (d - 10000) / 1000)
    else if 3000 ≤ d then min 50 ((d - 3000) / 200)
    else
      let start := i - windowSize / 2
      let stop := min n (i + (windowSize - windowSize / 2))
      let windowDelays := ((delays.drop start).take (stop - start)).filterMap
        (fun x => match x with
          | some v => if 0 < v then some v else none
          | none => none)
      if 2 < windowDelays.length then
        let mean := windowDelays.sum / (windowDelays.length : ℚ)
        let variance :=
          (windowDelays.map (fun v => (v - mean) ^ 2)).sum / (windowDelays.length : ℚ)
        let cov := sqrtQ variance / mean
        let base :=
          if 4/5 < cov then min 25 (cov * 15)
          else if 1/2 < cov then min 10 (cov * 8)
          else if 3/10 < cov then min 5 (cov * 5)
          else 0
        if mean * (5/2) < d then base + min 15 ((d / mean - 5/2) * 10) else base
      else 0

/-- The first n entries pushed into packetLossRates by the loop of
calculatePacketLoss: raw rate, EWMA-smoothed against the previously pushed
entry for i greater than 0, clamped to [0, 100] before being pushed. -/
def smoothLossAux (sqrtQ : ℚ → ℚ) (delays : List (Option ℚ)) : ℕ → List ℚ
  | 0 => []
  | n + 1 =>
    let prev := smoothLossAux sqrtQ delays n
    let raw := rawLossRate sqrtQ delays n
    let rate := if n = 0 then raw else 3/10 * raw + 7/10 * prev.getLastD 0
    prev ++ [clampLoss rate]

/-- calculatePacketLoss: the smoothed, clamped rates, each rounded to two
decimals at the end. -/
def calculatePacketLoss (sqrtQ : ℚ → ℚ) (delays : List (Option ℚ)) : List ℚ :=
  if delays.length = 0 then []
  else (smoothLossAux sqrtQ delays delays.length).map round2

/-! ## Sample interval (getMedianValue / getTypicalIntervalMs, lines 718-744) -/

/-- getMedianValue: sort ascending, take the middle element for odd length,
the mean of the two middle elements for even length.  (Callers only pass
non-empty lists; the out-of-range default 0 mirrors how JS would produce
undefined there.) -/
def getMedianValue (values : List ℚ) : ℚ :=
  let sorted := List.insertionSort (· ≤ ·) values
  let mid := sorted.length / 2
  if sorted.length % 2 = 1 then sorted.getD mid 0
  else (sorted.getD (mid - 1) 0 + sorted.getD mid 0) / 2

/-- Consecutive deltas of one series that are strictly positive. -/
def positiveDeltas (times : List ℚ) : List ℚ :=
  (times.zip times.tail).filterMap
    (fun p => if 0 < p.2 - p.1 then some (p.2 - p.1) else none)

/-- All positive consecutive deltas collected across every series, in order. -/
def intervalDeltas (data : List NezhaMonitor) : List ℚ :=
  data.foldl (fun acc item => acc ++ positiveDeltas item.created_at) []

/-- DEFAULT_INTERVAL_MS = 60 * 1000. -/
def DEFAULT_INTERVAL_MS : ℚ := 60 * 1000

/-- getTypicalIntervalMs: median of the positive deltas, rounded to the
nearest second; the JS expression Math.max(1000, rounded || median) falls back
to the unrounded median when the rounded value is 0. -/
def getTypicalIntervalMs (data : List NezhaMonitor) : ℚ :=
  let deltas := intervalDeltas data
  if deltas.length = 0 then DEFAULT_INTERVAL_MS
  else
    let median := getMedianValue deltas
    let rounded : ℚ := (round (median / 1000) : ℤ) * 1000
    max 1000 (if rounded = 0 then median else rounded)

/-- The SampleInterval in the words of the spec: the median of all positive
consecutive deltas across all series, rounded to the nearest second, floored
at 1000 ms, defaulting to 60000 ms when no deltas exist. -/
def specSampleInterval (data : List NezhaMonitor) : ℚ :=
  let deltas := intervalDeltas data
  if deltas.length = 0 then 60000
  else max 1000 ((round (getMedianValue deltas / 1000) : ℤ) * 1000)

/-! ## Theorems for C6 -/

theorem round_thousand_eq_zero_imp (m : ℚ)
    (h : ((round (m / 1000) : ℤ) * 1000 : ℚ) = 0) : m < 500 := by
  have h1 : ((round (m / 1000) : ℤ) : ℚ) = 0 := by
    rcases mul_eq_zero.mp h with h1 | h1
    · exact h1
    · norm_num at h1
  have h0 : round (m / 1000) = 0 := by exact_mod_cast h1
  rw [round_eq] at h0
  have h2 := Int.floor_eq_iff.mp h0
  have h3 : m / 1000 + 1 / 2 < (0 : ℤ) + 1 := h2.2
  push_cast at h3
  linarith

/-- C6: the canonical sample interval equals the median of all positive
consecutive timestamp deltas, rounded to the nearest second and floored at
1000 ms, and equals 60000 ms when no positive deltas exist.  (When the median
rounds to 0 the code falls back to Math.max(1000, median); since the median is
then below 500 this coincides with flooring the rounded value at 1000.) -/
theorem c6_typical_interval_eq_spec (data : List NezhaMonitor) :
    getTypicalIntervalMs data = specSampleInterval data := by
  simp only [getTypicalIntervalMs, specSampleInterval]
  by_cases hlen : (intervalDeltas data).length = 0
  · simp only [hlen, if_true]
    norm_num [DEFAULT_INTERVAL_MS]
  · simp only [hlen, if_false]
    by_cases hz :
        ((round (getMedianValue (intervalDeltas data) / 1000) : ℤ) * 1000 : ℚ) = 0
    · rw [if_pos hz, hz]
      have h500 := round_thousand_eq_zero_imp _ hz
      rw [max_eq_left (by linarith), max_eq_left (by norm_num)]
    · rw [if_neg hz]

/-! ## Theorems for C4 -/

theorem clampLoss_nonneg (x : ℚ) : 0 ≤ clampLoss x := le_max_left 0 _

theorem clampLoss_le_100 (x : ℚ) : clampLoss x ≤ 100 :=
  max_le (by norm_num) (min_le_left 100 x)

theorem length_smoothLossAux (sqrtQ : ℚ → ℚ) (delays : List (Option ℚ)) :
    ∀ n, (smoothLossAux sqrtQ delays n).length = n := by
  intro n
  induction n with
  | zero => rfl
  | succ m ih => simp [smoothLossAux, ih]

theorem smoothLossAux_bounds (sqrtQ : ℚ → ℚ) (delays : List (Option ℚ)) :
    ∀ n, ∀ x ∈ smoothLossAux sqrtQ delays n, 0 ≤ x ∧ x ≤ 100 := by
  intro n
  induction n with
  | zero => intro x hx; simp [smoothLossAux] at hx
  | succ m ih =>
    intro x hx
    simp only [smoothLossAux, List.mem_append, List.mem_singleton] at hx
    rcases hx with hx | rfl
    · exact ih x hx
    · exact ⟨clampLoss_nonneg _, clampLoss_le_100 _⟩

theorem getLastD_eq_getD (l : List ℚ) (d : ℚ) :
    l.getLastD d = l.getD (l.length - 1) d := by
  rw [List.getLastD_eq_getLast?, List.getLast?_eq_getElem?, List.getD_eq_getElem?_getD]

theorem smoothLossAux_step (sqrtQ : ℚ → ℚ) (delays : List (Option ℚ)) :
    ∀ n, ∀ i : ℕ, 0 < i → i < n →
      (smoothLossAux sqrtQ delays n).getD i 0 =
        clampLoss (3/10 * rawLossRate sqrtQ delays i
          + 7/10 * (smoothLossAux sqrtQ delays n).getD (i - 1) 0) := by
  intro n
  induction n with
  | zero => intro i _ hi; exact absurd hi (Nat.not_lt_zero i)
  | succ m ih =>
    intro i hpos hi
    have hlen := length_smoothLossAux sqrtQ delays m
    rcases Nat.lt_succ_iff_lt_or_eq.mp hi with hlt | rfl
    · have h1 : (smoothLossAux sqrtQ delays (m + 1)).getD i 0 =
          (smoothLossAux sqrtQ delays m).getD i 0 := by
        simp only [smoothLossAux]
        rw [List.getD_append _ _ _ _ (by rw [hlen]; exact hlt)]
      have h2 : (smoothLossAux sqrtQ delays (m + 1)).getD (i - 1) 0 =
          (smoothLossAux sqrtQ delays m).getD (i - 1) 0 := by
        simp only [smoothLossAux]
        rw [List.getD_append _ _ _ _ (by rw [hlen]; omega)]
      rw [h1, h2]
      exact ih i hpos hlt
    · have h1 : (smoothLossAux sqrtQ delays (i + 1)).getD i 0 =
          clampLoss (3/10 * rawLossRate sqrtQ delays i
            + 7/10 * (smoothLossAux sqrtQ delays i).getLastD 0) := by
        simp only [smoothLossAux]
        rw [List.getD_append_right _ _ _ _ hlen.le, hlen]
        simp [Nat.pos_iff_ne_zero.mp hpos]
      have h2 : (smoothLossAux sqrtQ delays (i + 1)).getD (i - 1) 0 =
          (smoothLossAux sqrtQ delays i).getD (i - 1) 0 := by
        simp only [smoothLossAux]
        rw [List.getD_append _ _ _ _ (by rw [hlen]; omega)]
      rw [h1, h2, getLastD_eq_getD, hlen]

/-- C4: every element of the packet-loss output lies in [0, 100] and is an
exact multiple of 1/100 (two-decimal rounding), and for every index i above 0
the pre-rounding smoothed value at i equals 0.3 times the raw estimate at i
plus 0.7 times the pre-rounding smoothed value at i - 1, clamped to [0, 100]:
the causal EWMA with alpha = 0.3. -/
theorem c4_packet_loss_bounds_and_ewma (sqrtQ : ℚ → ℚ) (delays : List (Option ℚ)) :
    (∀ v ∈ calculatePacketLoss sqrtQ delays,
        ∃ k : ℤ, v = (k : ℚ) / 100 ∧ 0 ≤ v ∧ v ≤ 100) ∧
    (∀ i : ℕ, 0 < i → i < delays.length →
        (smoothLossAux sqrtQ delays delays.length).getD i 0 =
          clampLoss (3/10 * rawLossRate sqrtQ delays i
            + 7/10 * (smoothLossAux sqrtQ delays delays.length).getD (i - 1) 0)) := by
  constructor
  · intro v hv
    unfold calculatePacketLoss at hv
    by_cases h0 : delays.length = 0
    · simp [h0] at hv
    · rw [if_neg h0] at hv
      rcases List.mem_map.mp hv with ⟨x, hx, rfl⟩
      have hb := smoothLossAux_bounds sqrtQ delays delays.length x hx
      refine ⟨round (100 * x), rfl, ?_, ?_⟩
      · have hk : (0:ℤ) ≤ round (100 * x) := by
          rw [round_eq]
          exact Int.le_floor.mpr (by push_cast; linarith [hb.1])
        unfold round2
        exact div_nonneg (by exact_mod_cast hk) (by norm_num)
      · have hk : round (100 * x) ≤ 10000 := by
          rw [round_eq]
          have hfl : ((⌊100 * x + 1/2⌋ : ℤ) : ℚ) ≤ 100 * x + 1/2 := Int.floor_le _
          have hlt : ((⌊100 * x + 1/2⌋ : ℤ) : ℚ) < 10001 := by linarith [hb.2]
          have : (⌊100 * x + 1/2⌋ : ℤ) < 10001 := by exact_mod_cast hlt
          omega
        unfold round2
        rw [div_le_iff₀ (by norm_num : (0:ℚ) < 100)]
        have : ((round (100 * x) : ℤ) : ℚ) ≤ 10000 := by exact_mod_cast hk
        linarith
  · exact smoothLossAux_step sqrtQ delays delays.length

theorem c4_witness :
    ((0:ℕ) < 1 ∧ (1:ℕ) < ([some 50, some 60] : List (Option ℚ)).length) ∧
    (smoothLossAux (fun _ => 0) ([some 50, some 60] : List (Option ℚ))
        ([some 50, some 60] : List (Option ℚ)).length).getD 1 0 =
      clampLoss (3/10 * rawLossRate (fun _ => 0) [some 50, some 60] 1
        + 7/10 * (smoothLossAux (fun _ => 0) ([some 50, some 60] : List (Option ℚ))
            ([some 50, some 60] : List (Option ℚ)).length).getD (1 - 1) 0) :=
  ⟨⟨by decide, by decide⟩,
    (c4_packet_loss_bounds_and_ewma (fun _ => 0) [some 50, some 60]).2 1
      (by decide) (by decide)⟩

/-! ## Display time range (getTimeRange, NetworkChart.tsx lines 683-716) -/

/-- The validity test getTimeRange applies to a candidate pair: true when
either endpoint is non-finite (none) or when start is at or after end. -/
def rangeInvalid : Option ℚ → Option ℚ → Bool
  | some a, some b => decide (b ≤ a)
  | _, _ => true

/-- Minimum observed timestamp across all series (none when there is none):
the Infinity-seeded fold of getTimeRange. -/
def observedMinTime (data : List NezhaMonitor) : Option ℚ :=
  data.foldl (fun acc item =>
    item.created_at.foldl (fun acc t =>
      match acc with
      | none => some t
      | some m => if t < m then some t else some m) acc) none

/-- Maximum observed timestamp across all series (none when there is none). -/
def observedMaxTime (data : List NezhaMonitor) : Option ℚ :=
  data.foldl (fun acc item =>
    item.created_at.foldl (fun acc t =>
      match acc with
      | none => some t
      | some m => if m < t then some t else some m) acc) none

/-- The start endpoint after the observed-min fallback block: only a
non-finite reported start is replaced, and only when the reported pair was
invalid. -/
def completedStart (data : List NezhaMonitor) (parsedFrom parsedTo : Option ℚ) :
    Option ℚ :=
  if rangeInvalid parsedFrom parsedTo then
    match parsedFrom with
    | none => observedMinTime data
    | some a => some a
  else parsedFrom

/-- The end endpoint after the observed-max fallback block. -/
def completedEnd (data : List NezhaMonitor) (parsedFrom parsedTo : Option ℚ) :
    Option ℚ :=
  if rangeInvalid parsedFrom parsedTo then
    match parsedTo with
    | none => observedMaxTime data
    | some b => some b
  else parsedTo

/-- getTimeRange: reported endpoints (Date.parse results passed as options),
then the observed min/max fallback for non-finite endpoints, then now minus
the requested hours when the pair is still invalid. -/
def getTimeRange (data : List NezhaMonitor) (rangeHours : ℚ)
    (parsedFrom parsedTo : Option ℚ) (now : ℚ) : ℚ × ℚ :=
  let s1 := completedStart data parsedFrom parsedTo
  let e1 := completedEnd data parsedFrom parsedTo
  if rangeInvalid s1 e1 then
    let safeHours : ℤ := max 1 ⌊rangeHours⌋
    (now - (safeHours : ℚ) * 60 * 60 * 1000, now)
  else (s1.getD 0, e1.getD 0)

/-! ## Theorems for C5 -/

/-- C5 (amended): the three derivation tiers in priority order, with the
second tier only filling endpoints that are non-finite: a reported pair that
is finite but inverted is not replaced by the observed min/max and falls
through to the now-minus-hours tier. -/
theorem c5_time_range_tiers (data : List NezhaMonitor) (rangeHours : ℚ)
    (parsedFrom parsedTo : Option ℚ) (now : ℚ) :
    (∀ a b : ℚ, parsedFrom = some a → parsedTo = some b → a < b →
      getTimeRange data rangeHours parsedFrom parsedTo now = (a, b)) ∧
    (∀ a b : ℚ, completedStart data parsedFrom parsedTo = some a →
      completedEnd data parsedFrom parsedTo = some b → a < b →
      getTimeRange data rangeHours parsedFrom parsedTo now = (a, b)) ∧
    (rangeInvalid (completedStart data parsedFrom parsedTo)
        (completedEnd data parsedFrom parsedTo) = true →
      getTimeRange data rangeHours parsedFrom parsedTo now =
        (now - ((max 1 ⌊rangeHours⌋ : ℤ) : ℚ) * 60 * 60 * 1000, now)) := by
  refine ⟨?_, ?_, ?_⟩
  · intro a b ha hb hab
    have hval : rangeInvalid parsedFrom parsedTo = false := by
      rw [ha, hb]
      simp [rangeInvalid, not_le.mpr hab]
    have hs : completedStart data parsedFrom parsedTo = some a := by
      simp [completedStart, hval, ha]
    have he : completedEnd data parsedFrom parsedTo = some b := by
      simp [completedEnd, hval, hb]
    simp only [getTimeRange, hs, he]
    simp [rangeInvalid, not_le.mpr hab]
  · intro a b hs he hab
    simp only [getTimeRange, hs, he]
    simp [rangeInvalid, not_le.mpr hab]
  · intro hbad
    simp only [getTimeRange, hbad]
    simp

def c5SeriesInput : List NezhaMonitor :=
  [{ monitor_id := 0, monitor_name := "m", server_id := 0, server_name := "s",
     created_at := [1000, 2000], avg_delay := [some 1, some 1],
     packet_loss := none }]

/-- C5 counterexample: a finite but inverted reported pair, with observed data
available, is resolved by the now-minus-hours tier, not by the observed
min/max pair (1000, 2000) the claim requires. -/
theorem c5_counterexample :
    getTimeRange c5SeriesInput 1 (some 10000) (some 0) 1000000 =
      (-2600000, 1000000) ∧
    ((-2600000 : ℚ), (1000000 : ℚ)) ≠ ((1000 : ℚ), (2000 : ℚ)) := by
  constructor
  · norm_num [getTimeRange, completedStart, completedEnd, rangeInvalid,
      observedMinTime, observedMaxTime, c5SeriesInput, Prod.ext_iff]
  · norm_num [Prod.ext_iff]

theorem c5_witness :
    (0 : ℚ) < 10 ∧ getTimeRange [] 1 (some 0) (some 10) 42 = (0, 10) :=
  ⟨by norm_num,
    (c5_time_range_tiers [] 1 (some 0) (some 10) 42).1 0 10 rfl rfl (by norm_num)⟩

/-! ## Raw Record Adapter and Series Assembler (fetchMonitor source file) -/

/-- One upstream record, with the two parses already applied: time holds the
Date.parse result (none for NaN, i.e. absent or unparseable) and value holds
the Number conversion (none for anything non-finite, including absence). -/
structure RawRecord where
  task_id : Option ℤ
  time : Option ℚ
  value : Option ℚ
  name : Option String
deriving DecidableEq

/-- The seriesByTask JS Map: insertion-ordered association list, unique keys. -/
abbrev SeriesMap := List (ℤ × NezhaMonitor)

/-- ensureSeries: insert a fresh empty series at the end unless the id is
already present (in which case the stored name is kept). -/
def ensureSeries (server_id : ℤ) (server_name : String) (st : SeriesMap)
    (id : ℤ) (name : String) : SeriesMap :=
  if st.any (fun e => e.1 = id) then st
  else st ++ [(id,
    { monitor_id := id, monitor_name := name, server_id := server_id,
      server_name := server_name, created_at := [], avg_delay := [],
      packet_loss := none })]

/-- Map lookup by task id. -/
def seriesLookup (st : SeriesMap) (id : ℤ) : Option NezhaMonitor :=
  (st.find? (fun e => e.1 = id)).map Prod.snd

/-- In-place mutation of the series stored under a task id. -/
def mapUpdate (st : SeriesMap) (id : ℤ) (f : NezhaMonitor → NezhaMonitor) :
    SeriesMap :=
  st.map (fun e => if e.1 = id then (e.1, f e.2) else e)

/-- appendRecord: create the series if needed, then push the parsed point;
records whose time or value is not finite are dropped after the series has
been created, and a value of exactly -1 is stored as a null entry. -/
def appendRecord (server_id : ℤ) (server_name : String)
    (nameOverride : Option String) (st : SeriesMap) (rec : RawRecord) :
    SeriesMap :=
  let id := rec.task_id.getD 0
  let name := nameOverride.getD (rec.name.getD ("task_" ++ toString id))
  let st1 := ensureSeries server_id server_name st id name
  match rec.time with
  | none => st1
  | some ts =>
    match rec.value with
    | none => st1
    | some v =>
      mapUpdate st1 id (fun s =>
        { s with created_at := s.created_at ++ [ts],
                 avg_delay := s.avg_delay ++ [if v = -1 then none else some v] })

/-- The three accepted upstream payload shapes, plus anything else. -/
inductive MonitorPayload where
  | tasksRecords : List (ℤ × String) → List RawRecord → MonitorPayload
  | recordsOnly : List RawRecord → MonitorPayload
  | bare : List RawRecord → MonitorPayload
  | unknown : MonitorPayload

/-- Shape dispatch of fetchMonitor: a task list seeds empty series, then the
records are appended; without a task list, series are discovered from the
records alone; an unrecognized payload yields no series. -/
def collectSeries (server_id : ℤ) (server_name : String) :
    MonitorPayload → SeriesMap
  | .tasksRecords tasks records =>
    let st0 := tasks.foldl
      (fun st task => ensureSeries server_id server_name st task.1 task.2) []
    records.foldl (appendRecord server_id server_name none) st0
  | .recordsOnly records => records.foldl (appendRecord server_id server_name none) []
  | .bare records => records.foldl (appendRecord server_id server_name none) []
  | .unknown => []

/-- Per-series assembly sort: pair timestamps with values positionally (an
out-of-range index yields undefined, modelled none), stable-sort by timestamp
ascending, unzip. -/
def sortSeries (s : NezhaMonitor) : NezhaMonitor :=
  let zipped := (List.range s.created_at.length).map
    (fun i => (s.created_at.getD i 0, s.avg_delay.getD i none))
  let sorted := List.insertionSort (fun a b => a.1 ≤ b.1) zipped
  { s with created_at := sorted.map Prod.fst, avg_delay := sorted.map Prod.snd }

/-- Empty-series substitution: one synthetic null point at now. -/
def padSeries (now : ℚ) (s : NezhaMonitor) : NezhaMonitor :=
  if s.avg_delay.length = 0 then
    { s with avg_delay := [none], created_at := [now] }
  else s

/-- The assembled output list of fetchMonitor. -/
def assembleMonitorData (server_id : ℤ) (server_name : String)
    (payload : MonitorPayload) (now : ℚ) : List NezhaMonitor :=
  (((collectSeries server_id server_name payload).map Prod.snd).map
    sortSeries).map (padSeries now)

structure MonitorResponse where
  success : Bool
  data : List NezhaMonitor
deriving DecidableEq

/-- fetchMonitor: resolve the node whose uuid hashes to server_id; when none
matches, return success with an empty list.  In the source the telemetry
request happens only after this check, which the model reflects by the result
being independent of the payload argument in that case.  Nodes are the
(uuid, optional display name) entries of getKomariNodes and uuidToNum is the
external uuid hash, kept abstract; an empty or missing node name falls back
to the printed server id. -/
def fetchMonitor (nodes : List (String × Option String)) (uuidToNum : String → ℤ)
    (server_id : ℤ) (payload : MonitorPayload) (now : ℚ) : MonitorResponse :=
  match (nodes.map Prod.fst).find? (fun id => uuidToNum id = server_id) with
  | none => { success := true, data := [] }
  | some uuid =>
    let serverName :=
      match (nodes.find? (fun e => e.1 = uuid)).bind Prod.snd with
      | some n => if n = "" then toString server_id else n
      | none => toString server_id
    { success := true, data := assembleMonitorData server_id serverName payload now }

/-! ## Theorems for C3 -/

theorem seriesLookup_mapUpdate (st : SeriesMap) (id : ℤ)
    (f : NezhaMonitor → NezhaMonitor) :
    seriesLookup (mapUpdate st id f) id = (seriesLookup st id).map f := by
  induction st with
  | nil => rfl
  | cons e rest ih =>
    by_cases he : e.1 = id
    · simp [seriesLookup, mapUpdate, he] at ih ⊢
    · simp only [seriesLookup, mapUpdate, List.map_cons] at ih ⊢
      rw [if_neg he]
      rw [List.find?_cons_of_neg _ (by simpa using he),
        List.find?_cons_of_neg _ (by simpa using he)]
      exact ih

/-- C3: appendRecord pushes a point onto the target series exactly when both
the time and the value parse to finite numbers, and a value of exactly -1 is
pushed as a null entry paired with the parsed timestamp rather than dropped. -/
theorem c3_append_iff_parses (server_id : ℤ) (server_name : String)
    (nameOverride : Option String) (st : SeriesMap) (rec : RawRecord)
    (s1 : NezhaMonitor)
    (h1 : seriesLookup
        (ensureSeries server_id server_name st (rec.task_id.getD 0)
          (nameOverride.getD (rec.name.getD
            ("task_" ++ toString (rec.task_id.getD 0)))))
        (rec.task_id.getD 0) = some s1) :
    (∀ ts v : ℚ, rec.time = some ts → rec.value = some v →
      seriesLookup (appendRecord server_id server_name nameOverride st rec)
          (rec.task_id.getD 0) =
        some { s1 with created_at := s1.created_at ++ [ts],
                       avg_delay :=
                         s1.avg_delay ++ [if v = -1 then none else some v] }) ∧
    ((rec.time = none ∨ rec.value = none) →
      appendRecord server_id server_name nameOverride st rec =
        ensureSeries server_id server_name st (rec.task_id.getD 0)
          (nameOverride.getD (rec.name.getD
            ("task_" ++ toString (rec.task_id.getD 0))))) := by
  constructor
  · intro ts v hts hv
    simp only [appendRecord, hts, hv]
    rw [seriesLookup_mapUpdate, h1]
    rfl
  · intro hbad
    rcases hbad with hbad | hbad
    · simp only [appendRecord, hbad]
    · simp only [appendRecord, hbad]
      cases rec.time <;> rfl

def c3Rec : RawRecord :=
  { task_id := some 7, time := some 5, value := some (-1), name := some "t" }

def c3Series : NezhaMonitor :=
  { monitor_id := 7, monitor_name := "t", server_id := 1, server_name := "s",
    created_at := [], avg_delay := [], packet_loss := none }

theorem c3_witness :
    seriesLookup
        (ensureSeries 1 "s" [] (c3Rec.task_id.getD 0)
          ((none : Option String).getD (c3Rec.name.getD
            ("task_" ++ toString (c3Rec.task_id.getD 0)))))
        (c3Rec.task_id.getD 0) = some c3Series ∧
    seriesLookup (appendRecord 1 "s" none [] c3Rec) (c3Rec.task_id.getD 0) =
      some { c3Series with
             created_at := c3Series.created_at ++ [5],
             avg_delay :=
               c3Series.avg_delay ++ [if (-1 : ℚ) = -1 then none else some (-1)] } :=
  ⟨by with_unfolding_all decide,
    (c3_append_iff_parses 1 "s" none [] c3Rec c3Series
      (by with_unfolding_all decide)).1 5 (-1) rfl rfl⟩

/-! ## Theorems for C10 -/

/-- C10: a server id matching no known upstream node yields a success result
with an empty data list, for every possible telemetry payload, so the result
is independent of any telemetry request. -/
theorem c10_unknown_server (nodes : List (String × Option String))
    (uuidToNum : String → ℤ) (server_id : ℤ)
    (h : ∀ e ∈ nodes, uuidToNum e.1 ≠ server_id) :
    ∀ (payload : MonitorPayload) (now : ℚ),
      fetchMonitor nodes uuidToNum server_id payload now =
        { success := true, data := [] } := by
  intro payload now
  unfold fetchMonitor
  have hf : (nodes.map Prod.fst).find?
      (fun id => decide (uuidToNum id = server_id)) = none := by
    rw [List.find?_eq_none]
    intro x hx
    rcases List.mem_map.mp hx with ⟨e, he, rfl⟩
    simpa using h e he
  rw [hf]

theorem c10_witness :
    (∀ e ∈ [("u", some "n")], (fun _ : String => (2 : ℤ)) e.1 ≠ 1) ∧
    fetchMonitor [("u", some "n")] (fun _ => 2) 1 MonitorPayload.unknown 0 =
      { success := true, data := [] } :=
  ⟨by decide, c10_unknown_server _ _ _ (by decide) MonitorPayload.unknown 0⟩

/-! ## Theorems for C7 -/

instance : IsTotal (ℚ × Option ℚ) (fun a b => a.1 ≤ b.1) :=
  ⟨fun a b => le_total a.1 b.1⟩

instance : IsTrans (ℚ × Option ℚ) (fun a b => a.1 ≤ b.1) :=
  ⟨fun _ _ _ hab hbc => le_trans hab hbc⟩

theorem sortSeries_invariants (s : NezhaMonitor) :
    (sortSeries s).created_at.length = (sortSeries s).avg_delay.length ∧
    (sortSeries s).created_at.Sorted (· ≤ ·) ∧
    (sortSeries s).created_at.length = s.created_at.length := by
  refine ⟨?_, ?_, ?_⟩
  · simp [sortSeries]
  · have h := List.sorted_insertionSort (fun (a b : ℚ × Option ℚ) => a.1 ≤ b.1)
      ((List.range s.created_at.length).map
        (fun i => (s.created_at.getD i 0, s.avg_delay.getD i none)))
    simp only [sortSeries, List.Sorted]
    rw [List.pairwise_map]
    exact h
  · simp [sortSeries, (List.perm_insertionSort _ _).length_eq]

/-- C7 (amended): every series in the fetchMonitor output has created_at and
avg_delay of equal length, non-decreasing (weakly ascending) created_at, and
is non-empty; moreover a non-empty output is, series by series, the sorted
collected series, except that a series that ends up with zero valid points
is replaced by the single synthetic point created_at = [now] with the null
value avg_delay = [null], so consumers never observe an empty series.
Strict ascent does not hold: duplicate timestamps survive the sort. -/
theorem c7_series_invariants (nodes : List (String × Option String))
    (uuidToNum : String → ℤ) (server_id : ℤ) (payload : MonitorPayload)
    (now : ℚ) :
    (∀ s ∈ (fetchMonitor nodes uuidToNum server_id payload now).data,
      s.created_at.length = s.avg_delay.length ∧
      s.created_at.Sorted (· ≤ ·) ∧ s.created_at ≠ [] ∧ s.avg_delay ≠ []) ∧
    ((fetchMonitor nodes uuidToNum server_id payload now).data ≠ [] →
      ∃ server_name : String,
        (fetchMonitor nodes uuidToNum server_id payload now).data =
          ((collectSeries server_id server_name payload).map Prod.snd).map
            (fun s0 =>
              if (sortSeries s0).avg_delay.length = 0 then
                { sortSeries s0 with avg_delay := [none], created_at := [now] }
              else sortSeries s0)) := by
  constructor
  · intro s hs
    unfold fetchMonitor at hs
    rcases hfind : (nodes.map Prod.fst).find?
        (fun id => decide (uuidToNum id = server_id)) with _ | uuid
    · rw [hfind] at hs
      simp at hs
    · rw [hfind] at hs
      simp only at hs
      unfold assembleMonitorData at hs
      rcases List.mem_map.mp hs with ⟨s2, hs2, rfl⟩
      rcases List.mem_map.mp hs2 with ⟨s1, hs1, rfl⟩
      unfold padSeries
      by_cases hlen : (sortSeries s1).avg_delay.length = 0
      · rw [if_pos hlen]
        exact ⟨rfl, List.sorted_singleton now, by simp, by simp⟩
      · rw [if_neg hlen]
        obtain ⟨hl, hsort, _⟩ := sortSeries_invariants s1
        refine ⟨hl, hsort, ?_, ?_⟩
        · intro hnil
          apply hlen
          rw [← hl, hnil]
          rfl
        · intro hnil
          apply hlen
          rw [hnil]
          rfl
  · intro hne
    unfold fetchMonitor at hne ⊢
    rcases hfind : (nodes.map Prod.fst).find?
        (fun id => decide (uuidToNum id = server_id)) with _ | uuid
    · rw [hfind] at hne
      simp at hne
    · have hasm : ∀ sn : String, assembleMonitorData server_id sn payload now =
          ((collectSeries server_id sn payload).map Prod.snd).map
            (fun s0 =>
              if (sortSeries s0).avg_delay.length = 0 then
                { sortSeries s0 with avg_delay := [none], created_at := [now] }
              else sortSeries s0) := by
        intro sn
        unfold assembleMonitorData
        rw [List.map_map]
        rfl
      exact ⟨_, hasm _⟩

def c7Payload : MonitorPayload :=
  .bare [{ task_id := some 0, time := some 5, value := some 1, name := some "t" },
         { task_id := some 0, time := some 5, value := some 2, name := some "t" }]

/-- C7 counterexample: two accepted records with the same timestamp yield a
series whose created_at is [5, 5], which is not strictly ascending. -/
theorem c7_counterexample :
    ((fetchMonitor [("u", some "n")] (fun _ => 1) 1 c7Payload 999).data.getD 0
        default).created_at = [5, 5] ∧
    ¬ ([5, 5] : List ℚ).Sorted (· < ·) := by
  constructor
  · with_unfolding_all decide
  · decide

theorem c7_witness :
    (((fetchMonitor [("u", some "n")] (fun _ => 1) 1 c7Payload 999).data.getD 0
        default).created_at.length =
      ((fetchMonitor [("u", some "n")] (fun _ => 1) 1 c7Payload 999).data.getD 0
        default).avg_delay.length ∧
     ((fetchMonitor [("u", some "n")] (fun _ => 1) 1 c7Payload 999).data.getD 0
        default).created_at.Sorted (· ≤ ·) ∧
     ((fetchMonitor [("u", some "n")] (fun _ => 1) 1 c7Payload 999).data.getD 0
        default).created_at ≠ [] ∧
     ((fetchMonitor [("u", some "n")] (fun _ => 1) 1 c7Payload 999).data.getD 0
        default).avg_delay ≠ []) ∧
    (∃ server_name : String,
      (fetchMonitor [("u", some "n")] (fun _ => 1) 1 c7Payload 999).data =
        ((collectSeries 1 server_name c7Payload).map Prod.snd).map
          (fun s0 =>
            if (sortSeries s0).avg_delay.length = 0 then
              { sortSeries s0 with avg_delay := [none], created_at := [999] }
            else sortSeries s0)) :=
  ⟨(c7_series_invariants [("u", some "n")] (fun _ => 1) 1 c7Payload 999).1 _
      (by with_unfolding_all decide),
    (c7_series_invariants [("u", some "n")] (fun _ => 1) 1 c7Payload 999).2
      (by with_unfolding_all decide)⟩

/-! ## Timeline Reconciler (NetworkChart.tsx lines 679-826) -/

structure OfflineSpan where
  start : ℚ
  stop : ℚ
deriving DecidableEq

/-- OFFLINE_GAP_MULTIPLIER = 1.5. -/
def OFFLINE_GAP_MULTIPLIER : ℚ := 3/2

/-- The loop of buildOfflineSpans over consecutive sorted observed times:
a span from prev + intervalMs to min(next, rangeEnd) whenever the gap
exceeds the threshold and the candidate span is non-empty. -/
def internalOfflineSpans (rangeEnd intervalMs threshold : ℚ) :
    List ℚ → List OfflineSpan
  | a :: b :: rest =>
    (if threshold < b - a ∧ a + intervalMs < min b rangeEnd then
      [⟨a + intervalMs, min b rangeEnd⟩] else [])
    ++ internalOfflineSpans rangeEnd intervalMs threshold (b :: rest)
  | _ => []

/-- buildOfflineSpans: degenerate ranges and non-positive intervals yield no
spans; no observation at all makes the whole range one span; otherwise a
leading span, the internal gap spans, and a trailing span. -/
def buildOfflineSpans (observedTimes : List ℚ)
    (rangeStart rangeEnd intervalMs : ℚ) : List OfflineSpan :=
  if rangeEnd ≤ rangeStart ∨ intervalMs ≤ 0 then []
  else if observedTimes = [] then [⟨rangeStart, rangeEnd⟩]
  else
    let threshold := intervalMs * OFFLINE_GAP_MULTIPLIER
    let sortedTimes := List.insertionSort (· ≤ ·) observedTimes
    let firstTime := sortedTimes.headD 0
    let lastTime := sortedTimes.getLastD 0
    (if threshold < firstTime - rangeStart then [⟨rangeStart, firstTime⟩] else [])
    ++ internalOfflineSpans rangeEnd intervalMs threshold sortedTimes
    ++ (if threshold < rangeEnd - lastTime ∧ lastTime + intervalMs < rangeEnd then
        [⟨lastTime + intervalMs, rangeEnd⟩] else [])

/-- The discrete offline points of one span: the loop iterates
t = start + k * intervalMs while t < stop, so it runs for exactly
ceil((stop - start) / intervalMs) values of k when intervalMs is positive. -/
def offlinePointsOfSpan (intervalMs : ℚ) (span : OfflineSpan) : List ℚ :=
  (List.range (⌈(span.stop - span.start) / intervalMs⌉).toNat).map
    (fun k => span.start + (k : ℚ) * intervalMs)

/-- buildOfflinePoints: all spans materialized, in order. -/
def buildOfflinePoints (spans : List OfflineSpan) (intervalMs : ℚ) : List ℚ :=
  if intervalMs ≤ 0 then []
  else spans.foldl (fun acc span => acc ++ offlinePointsOfSpan intervalMs span) []

/-- JS Set.add: append unless already present. -/
def setAdd (s : List ℚ) (x : ℚ) : List ℚ := if x ∈ s then s else s ++ [x]

/-- The observedSet collection loop of buildTimelineData. -/
def collectObservedSet (rawData : List NezhaMonitor) (rangeStart rangeEnd : ℚ) :
    List ℚ :=
  rawData.foldl (fun acc item =>
    item.created_at.foldl (fun acc t =>
      if rangeStart ≤ t ∧ t ≤ rangeEnd then setAdd acc t else acc) acc) []

structure TimelineData where
  timeline : List ℚ
  offlineSpans : List OfflineSpan
  observedSet : List ℚ
  intervalMs : ℚ
deriving DecidableEq

/-- buildTimelineData: collect the in-range observation set, sort it, build
the offline spans and points with the typical interval, merge into the
de-duplicated sorted timeline. -/
def buildTimelineData (rawData : List NezhaMonitor) (rangeStart rangeEnd : ℚ) :
    TimelineData :=
  let observedSet := collectObservedSet rawData rangeStart rangeEnd
  let observedTimes := List.insertionSort (· ≤ ·) observedSet
  let intervalMs := getTypicalIntervalMs rawData
  let offlineSpans := buildOfflineSpans observedTimes rangeStart rangeEnd intervalMs
  let offlinePoints := buildOfflinePoints offlineSpans intervalMs
  let timelineSet := offlinePoints.foldl setAdd observedTimes
  let timeline := List.insertionSort (· ≤ ·) timelineSet
  ⟨timeline, offlineSpans, observedSet, intervalMs⟩

/-! ## Theorems for C2 -/

/-- Two spans in the relation the spec asserts: non-overlapping and strictly
ordered by start. -/
def spanSeparated (s t : OfflineSpan) : Prop := s.stop ≤ t.start ∧ s.start < t.start

theorem le_getLastD_of_sorted :
    ∀ (l : List ℚ) (d : ℚ), l.Sorted (· ≤ ·) → ∀ x ∈ l, x ≤ l.getLastD d := by
  intro l
  induction l with
  | nil => intro d _ x hx; simp at hx
  | cons a rest ih =>
    intro d hl x hx
    rw [List.getLastD_cons]
    rcases List.mem_cons.mp hx with rfl | hx2
    · cases rest with
      | nil => exact le_refl x
      | cons b rest2 =>
        have hab : x ≤ b := (List.sorted_cons.mp hl).1 b (by simp)
        have hb := ih x hl.of_cons b (by simp)
        rw [List.getLastD_cons] at hb ⊢
        exact le_trans hab hb
    · exact ih a hl.of_cons x hx2

theorem internalOfflineSpans_start_ge (re im thr : ℚ) :
    ∀ (l : List ℚ) (a : ℚ), (a :: l).Sorted (· ≤ ·) →
      ∀ s ∈ internalOfflineSpans re im thr (a :: l), a + im ≤ s.start := by
  intro l
  induction l with
  | nil => intro a _ s hs; simp [internalOfflineSpans] at hs
  | cons b rest ih =>
    intro a hl s hs
    simp only [internalOfflineSpans, List.mem_append] at hs
    rcases hs with hs | hs
    · by_cases hc : thr < b - a ∧ a + im < min b re
      · rw [if_pos hc] at hs
        simp only [List.mem_singleton] at hs
        subst hs
        exact le_refl _
      · rw [if_neg hc] at hs
        simp at hs
    · have hab : a ≤ b := (List.sorted_cons.mp hl).1 b (by simp)
      have hb := ih b hl.of_cons s hs
      linarith

theorem internalOfflineSpans_stop_le (re im thr : ℚ) :
    ∀ (l : List ℚ) (a : ℚ), (a :: l).Sorted (· ≤ ·) →
      ∀ s ∈ internalOfflineSpans re im thr (a :: l),
        s.stop ≤ re ∧ s.stop ≤ (a :: l).getLastD 0 := by
  intro l
  induction l with
  | nil => intro a _ s hs; simp [internalOfflineSpans] at hs
  | cons b rest ih =>
    intro a hl s hs
    simp only [internalOfflineSpans, List.mem_append] at hs
    have hbmem : b ∈ a :: b :: rest := by simp
    have hble : b ≤ (a :: b :: rest).getLastD 0 :=
      le_getLastD_of_sorted _ 0 hl b hbmem
    rcases hs with hs | hs
    · by_cases hc : thr < b - a ∧ a + im < min b re
      · rw [if_pos hc] at hs
        simp only [List.mem_singleton] at hs
        subst hs
        constructor
        · exact min_le_right b re
        · exact le_trans (min_le_left b re) hble
      · rw [if_neg hc] at hs
        simp at hs
    · have hrec := ih b hl.of_cons s hs
      refine ⟨hrec.1, ?_⟩
      rw [List.getLastD_cons]
      have := hrec.2
      rw [List.getLastD_cons] at this ⊢
      cases rest with
      | nil => exact this
      | cons c rest2 =>
        rw [List.getLastD_cons] at this ⊢
        exact this

theorem internalOfflineSpans_wf (re im thr : ℚ) :
    ∀ l, ∀ s ∈ internalOfflineSpans re im thr l, s.start < s.stop := by
  intro l
  induction l with
  | nil => intro s hs; simp [internalOfflineSpans] at hs
  | cons a rest ih =>
    cases rest with
    | nil => intro s hs; simp [internalOfflineSpans] at hs
    | cons b rest2 =>
      intro s hs
      simp only [internalOfflineSpans, List.mem_append] at hs
      rcases hs with hs | hs
      · by_cases hc : thr < b - a ∧ a + im < min b re
        · rw [if_pos hc] at hs
          simp only [List.mem_singleton] at hs
          subst hs
          exact hc.2
        · rw [if_neg hc] at hs
          simp at hs
      · exact ih s hs

theorem internalOfflineSpans_pairwise (re im thr : ℚ) (him : 0 < im) :
    ∀ l : List ℚ, l.Sorted (· ≤ ·) →
      (internalOfflineSpans re im thr l).Pairwise spanSeparated := by
  intro l
  induction l with
  | nil => intro _; simp [internalOfflineSpans]
  | cons a rest ih =>
    intro hl
    cases rest with
    | nil => simp [internalOfflineSpans]
    | cons b rest2 =>
      simp only [internalOfflineSpans]
      rw [List.pairwise_append]
      refine ⟨?_, ih hl.of_cons, ?_⟩
      · by_cases hc : thr < b - a ∧ a + im < min b re
        · rw [if_pos hc]; exact List.pairwise_singleton _ _
        · rw [if_neg hc]; exact List.Pairwise.nil
      · intro s hs t ht
        by_cases hc : thr < b - a ∧ a + im < min b re
        · rw [if_pos hc] at hs
          simp only [List.mem_singleton] at hs
          subst hs
          have hts := internalOfflineSpans_start_ge re im thr rest2 b hl.of_cons t ht
          constructor
          · show min b re ≤ t.start
            have : min b re ≤ b := min_le_left b re
            linarith
          · show a + im < t.start
            have : a + im < min b re := hc.2
            have hmb : min b re ≤ b := min_le_left b re
            linarith
        · rw [if_neg hc] at hs
          simp at hs

theorem spans_concat_pairwise (rs re im thr : ℚ) (him : 0 < im) (hthr : 0 < thr)
    (st : List ℚ) (hne : st ≠ []) (hsort : st.Sorted (· ≤ ·)) :
    ((if thr < st.headD 0 - rs then [(⟨rs, st.headD 0⟩ : OfflineSpan)] else [])
      ++ internalOfflineSpans re im thr st
      ++ (if thr < re - st.getLastD 0 ∧ st.getLastD 0 + im < re then
          [(⟨st.getLastD 0 + im, re⟩ : OfflineSpan)] else [])).Pairwise
      spanSeparated := by
  cases st with
  | nil => exact absurd rfl hne
  | cons a l =>
    have hhead : (a :: l).headD 0 = a := rfl
    have hGL : a ≤ (a :: l).getLastD 0 :=
      le_getLastD_of_sorted _ 0 hsort a (by simp)
    rw [List.append_assoc, List.pairwise_append]
    refine ⟨?_, ?_, ?_⟩
    · by_cases hld : thr < (a :: l).headD 0 - rs
      · rw [if_pos hld]; exact List.pairwise_singleton _ _
      · rw [if_neg hld]; exact List.Pairwise.nil
    · rw [List.pairwise_append]
      refine ⟨internalOfflineSpans_pairwise re im thr him _ hsort, ?_, ?_⟩
      · by_cases htr : thr < re - (a :: l).getLastD 0 ∧ (a :: l).getLastD 0 + im < re
        · rw [if_pos htr]; exact List.pairwise_singleton _ _
        · rw [if_neg htr]; exact List.Pairwise.nil
      · intro s hs t ht
        by_cases htr : thr < re - (a :: l).getLastD 0 ∧ (a :: l).getLastD 0 + im < re
        · rw [if_pos htr] at ht
          simp only [List.mem_singleton] at ht
          subst ht
          have hstop := internalOfflineSpans_stop_le re im thr l a hsort s hs
          have hwf := internalOfflineSpans_wf re im thr (a :: l) s hs
          constructor
          · show s.stop ≤ (a :: l).getLastD 0 + im
            linarith [hstop.2]
          · show s.start < (a :: l).getLastD 0 + im
            linarith [hstop.2]
        · rw [if_neg htr] at ht
          simp at ht
    · intro s hs t ht
      by_cases hld : thr < (a :: l).headD 0 - rs
      · rw [if_pos hld] at hs
        simp only [List.mem_singleton] at hs
        subst hs
        rw [hhead] at hld
        have hrsa : rs < a := by linarith
        rw [List.mem_append] at ht
        rcases ht with ht | ht
        · have hstart := internalOfflineSpans_start_ge re im thr l a hsort t ht
          constructor
          · show (a :: l).headD 0 ≤ t.start
            rw [hhead]
            linarith
          · show rs < t.start
            linarith
        · by_cases htr : thr < re - (a :: l).getLastD 0 ∧ (a :: l).getLastD 0 + im < re
          · rw [if_pos htr] at ht
            simp only [List.mem_singleton] at ht
            subst ht
            constructor
            · show (a :: l).headD 0 ≤ (a :: l).getLastD 0 + im
              rw [hhead]
              linarith
            · show rs < (a :: l).getLastD 0 + im
              linarith
          · rw [if_neg htr] at ht
            simp at ht
      · rw [if_neg hld] at hs
        simp at hs

theorem buildOfflineSpans_pairwise (observedTimes : List ℚ)
    (rangeStart rangeEnd intervalMs : ℚ) :
    (buildOfflineSpans observedTimes rangeStart rangeEnd intervalMs).Pairwise
      spanSeparated := by
  unfold buildOfflineSpans
  by_cases hg : rangeEnd ≤ rangeStart ∨ intervalMs ≤ 0
  · rw [if_pos hg]
    exact List.Pairwise.nil
  · rw [if_neg hg]
    push_neg at hg
    by_cases hobs : observedTimes = []
    · rw [if_pos hobs]
      exact List.pairwise_singleton _ _
    · rw [if_neg hobs]
      have hne : List.insertionSort (· ≤ ·) observedTimes ≠ [] := by
        intro h
        apply hobs
        have hp := List.perm_insertionSort (· ≤ ·) observedTimes
        rw [h] at hp
        exact (hp.symm.eq_nil)
      exact spans_concat_pairwise rangeStart rangeEnd intervalMs
        (intervalMs * OFFLINE_GAP_MULTIPLIER) hg.2
        (by have := hg.2; unfold OFFLINE_GAP_MULTIPLIER; positivity)
        (List.insertionSort (· ≤ ·) observedTimes) hne
        (List.sorted_insertionSort (· ≤ ·) observedTimes)

theorem setAdd_nodup {s : List ℚ} (h : s.Nodup) (x : ℚ) : (setAdd s x).Nodup := by
  unfold setAdd
  by_cases hx : x ∈ s
  · rw [if_pos hx]
    exact h
  · rw [if_neg hx]
    rw [List.nodup_append]
    refine ⟨h, List.nodup_singleton x, ?_⟩
    rw [List.disjoint_singleton]
    exact hx

theorem foldl_setAdd_nodup (l : List ℚ) :
    ∀ acc : List ℚ, acc.Nodup → (l.foldl setAdd acc).Nodup := by
  induction l with
  | nil => intro acc h; exact h
  | cons x xs ih => intro acc h; exact ih _ (setAdd_nodup h x)

theorem foldl_setAdd_range_nodup (rs re : ℚ) (l : List ℚ) :
    ∀ acc : List ℚ, acc.Nodup →
      (l.foldl (fun acc t => if rs ≤ t ∧ t ≤ re then setAdd acc t else acc)
        acc).Nodup := by
  induction l with
  | nil => intro acc h; exact h
  | cons x xs ih =>
    intro acc h
    by_cases hx : rs ≤ x ∧ x ≤ re
    · simp only [List.foldl_cons, if_pos hx]
      exact ih _ (setAdd_nodup h x)
    · simp only [List.foldl_cons, if_neg hx]
      exact ih _ h

theorem collectObservedSet_nodup (rawData : List NezhaMonitor) (rs re : ℚ) :
    (collectObservedSet rawData rs re).Nodup := by
  unfold collectObservedSet
  have h : ∀ (ds : List NezhaMonitor) (acc : List ℚ), acc.Nodup →
      (ds.foldl (fun acc item =>
        item.created_at.foldl (fun acc t =>
          if rs ≤ t ∧ t ≤ re then setAdd acc t else acc) acc) acc).Nodup := by
    intro ds
    induction ds with
    | nil => intro acc h; exact h
    | cons d rest ih =>
      intro acc h
      exact ih _ (foldl_setAdd_range_nodup rs re d.created_at acc h)
  exact h rawData [] List.nodup_nil

theorem buildTimelineData_timeline_ascending (rawData : List NezhaMonitor)
    (rs re : ℚ) :
    (buildTimelineData rawData rs re).timeline.Sorted (· < ·) := by
  have hobs := collectObservedSet_nodup rawData rs re
  have h1 : (List.insertionSort (· ≤ ·) (collectObservedSet rawData rs re)).Nodup :=
    ((List.perm_insertionSort (· ≤ ·) (collectObservedSet rawData rs re)).nodup_iff).mpr hobs
  have h2 : ((buildOfflinePoints
      (buildOfflineSpans
        (List.insertionSort (· ≤ ·) (collectObservedSet rawData rs re))
        rs re (getTypicalIntervalMs rawData))
      (getTypicalIntervalMs rawData)).foldl setAdd
      (List.insertionSort (· ≤ ·) (collectObservedSet rawData rs re))).Nodup :=
    foldl_setAdd_nodup _ _ h1
  have h3 := List.sorted_insertionSort (· ≤ ·)
    ((buildOfflinePoints
      (buildOfflineSpans
        (List.insertionSort (· ≤ ·) (collectObservedSet rawData rs re))
        rs re (getTypicalIntervalMs rawData))
      (getTypicalIntervalMs rawData)).foldl setAdd
      (List.insertionSort (· ≤ ·) (collectObservedSet rawData rs re)))
  have h4 := ((List.perm_insertionSort (· ≤ ·)
    ((buildOfflinePoints
      (buildOfflineSpans
        (List.insertionSort (· ≤ ·) (collectObservedSet rawData rs re))
        rs re (getTypicalIntervalMs rawData))
      (getTypicalIntervalMs rawData)).foldl setAdd
      (List.insertionSort (· ≤ ·) (collectObservedSet rawData rs re)))).nodup_iff).mpr h2
  exact List.Sorted.lt_of_le h3 h4

/-- C2: for every series list, every proper range and every positive interval,
the offline spans are pairwise non-overlapping and strictly ordered by start
(both for buildOfflineSpans directly and for the spans that buildTimelineData
produces), and the merged timeline of observed and synthetic offline
timestamps is strictly ascending, hence free of duplicates. -/
theorem c2_spans_and_timeline (observedTimes : List ℚ)
    (rawData : List NezhaMonitor) (rangeStart rangeEnd intervalMs : ℚ)
    (h1 : rangeStart < rangeEnd) (h2 : 0 < intervalMs) :
    (buildOfflineSpans observedTimes rangeStart rangeEnd intervalMs).Pairwise
      spanSeparated ∧
    (buildTimelineData rawData rangeStart rangeEnd).offlineSpans.Pairwise
      spanSeparated ∧
    (buildTimelineData rawData rangeStart rangeEnd).timeline.Sorted (· < ·) ∧
    (buildTimelineData rawData rangeStart rangeEnd).timeline.Nodup := by
  refine ⟨buildOfflineSpans_pairwise _ _ _ _, ?_, ?_, ?_⟩
  · exact buildOfflineSpans_pairwise _ _ _ _
  · exact buildTimelineData_timeline_ascending rawData rangeStart rangeEnd
  · exact (buildTimelineData_timeline_ascending rawData rangeStart rangeEnd).nodup

theorem c2_witness :
    ((0 : ℚ) < 2 ∧ (0 : ℚ) < 1) ∧
    ((buildOfflineSpans [0, 1] 0 2 1).Pairwise spanSeparated ∧
     (buildTimelineData [] 0 2).offlineSpans.Pairwise spanSeparated ∧
     (buildTimelineData [] 0 2).timeline.Sorted (· < ·) ∧
     (buildTimelineData [] 0 2).timeline.Nodup) :=
  ⟨⟨by decide, by decide⟩,
    c2_spans_and_timeline [0, 1] [] 0 2 1 (by decide) (by decide)⟩

/-! ## Series Formatter / Interpolator (formatData, NetworkChart.tsx 594-677) -/

def OFFLINE_KEY : String := "__offline__"

/-- One output row of formatData: the created_at field plus the dynamic
columns (monitor names, their packet-loss companions, the offline marker). -/
structure Row where
  created_at : ℚ
  cols : String → JVal

instance : Inhabited Row := ⟨⟨0, fun _ => JVal.missing⟩⟩

/-- Property write on a row. -/
def Row.set (r : Row) (k : String) (v : JVal) : Row :=
  { r with cols := fun q => if q = k then v else r.cols q }

/-- The row initializer of formatData: created_at plus the offline marker,
null when the timestamp was actually observed and 1 otherwise. -/
def initRow (observedSet : List ℚ) (t : ℚ) : Row :=
  { created_at := t,
    cols := fun k =>
      if k = OFFLINE_KEY then (if t ∈ observedSet then JVal.null else JVal.num 1)
      else JVal.missing }

/-- The result dictionary keyed by timestamp. -/
abbrev RowMap := ℚ → Option Row

def initRows (timeline observedSet : List ℚ) : RowMap :=
  fun t => if t ∈ timeline then some (initRow observedSet t) else none

def updRow (M : RowMap) (t : ℚ) (r : Row) : RowMap :=
  fun q => if q = t then some r else M q

/-- The JS expression x ?? null read back from a Map. -/
def jvalOfOpt : Option ℚ → JVal
  | some v => JVal.num v
  | none => JVal.null

/-- The valueMap a series builds: Map.set per index in order, so the last
index carrying a timestamp wins; a stored out-of-range read is undefined and
collapses to null just as a stored null does. -/
def valueMapOf (item : NezhaMonitor) (t : ℚ) : Option ℚ :=
  (((List.range item.created_at.length).filter
      (fun i => item.created_at.getD i 0 = t)).getLast?).bind
    (fun i => item.avg_delay.getD i none)

/-- The packet-loss list formatData uses: the upstream field when present
(every array is truthy in JS, even an empty one), otherwise the computed
estimate; hence the if (packetLoss) guards in the loop are always taken. -/
def packetLossOf (sqrtQ : ℚ → ℚ) (item : NezhaMonitor) : List ℚ :=
  match item.packet_loss with
  | some pl => pl
  | none => calculatePacketLoss sqrtQ item.avg_delay

def plMapOf (sqrtQ : ℚ → ℚ) (item : NezhaMonitor) (t : ℚ) : Option ℚ :=
  (((List.range item.created_at.length).filter
      (fun i => item.created_at.getD i 0 = t)).getLast?).bind
    (fun i => (packetLossOf sqrtQ item)[i]?)

/-- The validPoints array of one series: the points whose value is neither
null nor undefined, in timestamp order. -/
def validPointsOf (item : NezhaMonitor) : List (ℚ × ℚ) :=
  (item.created_at.zip item.avg_delay).filterMap
    (fun p => p.2.map (fun v => (p.1, v)))

/-- The while loop advancing nextIndex and prevPoint past the valid points
lying strictly before the current timeline timestamp. -/
def advanceValid (t : ℚ) : List (ℚ × ℚ) → Option (ℚ × ℚ) →
    List (ℚ × ℚ) × Option (ℚ × ℚ)
  | [], prev => ([], prev)
  | p :: rest, prev =>
    if p.1 < t then advanceValid t rest (some p) else (p :: rest, prev)

/-- The timeline.forEach body of formatData for one series: re-initialize a
missing row, write nulls inside offline stretches, copy exact samples, and
otherwise interpolate between the bounding valid points when both exist and
their gap is within 1.5 times the interval, while the two-pointer state
advances. -/
def applySeriesGo (m : String) (vMap pMap : ℚ → Option ℚ) (samples : List ℚ)
    (observedSet : List ℚ) (intervalMs : ℚ) :
    List ℚ → List (ℚ × ℚ) → Option (ℚ × ℚ) → RowMap → RowMap
  | [], _, _, M => M
  | t :: rest, valid, prev, M =>
    let row := (M t).getD (initRow observedSet t)
    if row.cols OFFLINE_KEY ≠ JVal.null then
      let row2 := (row.set m JVal.null).set (m ++ "_packet_loss") JVal.null
      applySeriesGo m vMap pMap samples observedSet intervalMs rest valid prev
        (updRow M t row2)
    else if t ∈ samples then
      let row2 := (row.set m (jvalOfOpt (vMap t))).set (m ++ "_packet_loss")
        (jvalOfOpt (pMap t))
      applySeriesGo m vMap pMap samples observedSet intervalMs rest valid prev
        (updRow M t row2)
    else
      let st := advanceValid t valid prev
      let v : JVal :=
        match st.2, st.1.head? with
        | some p, some q =>
          if 0 < intervalMs ∧ q.1 - p.1 ≤ intervalMs * OFFLINE_GAP_MULTIPLIER then
            JVal.num (p.2 + (t - p.1) / (q.1 - p.1) * (q.2 - p.2))
          else JVal.null
        | _, _ => JVal.null
      let row2 := (row.set m v).set (m ++ "_packet_loss") JVal.null
      applySeriesGo m vMap pMap samples observedSet intervalMs rest st.1 st.2
        (updRow M t row2)

def applySeries (sqrtQ : ℚ → ℚ) (observedSet : List ℚ) (intervalMs : ℚ)
    (timeline : List ℚ) (M : RowMap) (item : NezhaMonitor) : RowMap :=
  applySeriesGo item.monitor_name (valueMapOf item) (plMapOf sqrtQ item)
    item.created_at observedSet intervalMs timeline (validPointsOf item) none M

/-- formatData: initialize one row per timeline timestamp, process every
series in order, then emit the rows ascending by timestamp (Object.values of
string keys in insertion order followed by the comparator sort; one row per
distinct timestamp, so the result is the rows of the de-duplicated sorted
timeline). -/
def formatData (sqrtQ : ℚ → ℚ) (rawData : List NezhaMonitor)
    (timeline observedSet : List ℚ) (intervalMs : ℚ) : List Row :=
  let M := rawData.foldl (applySeries sqrtQ observedSet intervalMs timeline)
    (initRows timeline observedSet)
  (List.insertionSort (· ≤ ·) timeline.dedup).filterMap M

/-- Nearest valid point strictly before t. -/
def prevValidPoint (vps : List (ℚ × ℚ)) (t : ℚ) : Option (ℚ × ℚ) :=
  (vps.filter (fun p => p.1 < t)).getLast?

/-- Nearest valid point strictly after t. -/
def nextValidPoint (vps : List (ℚ × ℚ)) (t : ℚ) : Option (ℚ × ℚ) :=
  (vps.filter (fun p => t < p.1)).head?

/-! ## Theorems for C1 -/

/-- The value the interpolation branch of formatData produces at a
non-offline, non-sample timestamp, expressed through the nearest valid
points. -/
def interpolatedValue (vps : List (ℚ × ℚ)) (intervalMs : ℚ) (t : ℚ) : JVal :=
  match prevValidPoint vps t, nextValidPoint vps t with
  | some p, some q =>
    if 0 < intervalMs ∧ q.1 - p.1 ≤ intervalMs * OFFLINE_GAP_MULTIPLIER then
      JVal.num (p.2 + (t - p.1) / (q.1 - p.1) * (q.2 - p.2))
    else JVal.null
  | _, _ => JVal.null

/-- Invariant of the two-pointer walk: the valid points split into a dropped
prefix, all strictly before the bound, whose last element is the prevPoint. -/
def TwoPtrInv (vps valid : List (ℚ × ℚ)) (prev : Option (ℚ × ℚ)) (bound : ℚ) :
    Prop :=
  ∃ dropped, vps = dropped ++ valid ∧ prev = dropped.getLast? ∧
    ∀ p ∈ dropped, p.1 < bound

theorem ne_append_packet_loss (m : String) : m ≠ m ++ "_packet_loss" := by
  intro h
  have hlen := congrArg String.length h
  rw [String.length_append] at hlen
  have h12 : ("_packet_loss" : String).length = 12 := rfl
  omega

theorem Row.created_at_set (r : Row) (k : String) (v : JVal) :
    (r.set k v).created_at = r.created_at := rfl

theorem Row.cols_set_same (r : Row) (k : String) (v : JVal) :
    (r.set k v).cols k = v := by simp [Row.set]

theorem Row.cols_set_other (r : Row) (k q : String) (v : JVal) (h : q ≠ k) :
    (r.set k v).cols q = r.cols q := by simp [Row.set, h]

theorem advanceValid_preserves_inv (u t : ℚ) (hut : u ≤ t)
    (vps : List (ℚ × ℚ)) :
    ∀ (valid : List (ℚ × ℚ)) (prev : Option (ℚ × ℚ)),
      TwoPtrInv vps valid prev t →
      TwoPtrInv vps (advanceValid u valid prev).1 (advanceValid u valid prev).2
        t := by
  intro valid
  induction valid with
  | nil => intro prev h; exact h
  | cons p rest ih =>
    intro prev h
    obtain ⟨dropped, hsplit, hprev, hdrop⟩ := h
    by_cases hp : p.1 < u
    · have hstep : advanceValid u (p :: rest) prev = advanceValid u rest (some p) := by
        simp [advanceValid, hp]
      rw [hstep]
      apply ih
      refine ⟨dropped ++ [p], ?_, ?_, ?_⟩
      · rw [hsplit, List.append_assoc]
        rfl
      · rw [List.getLast?_concat]
      · intro x hx
        rcases List.mem_append.mp hx with hx | hx
        · exact hdrop x hx
        · rw [List.mem_singleton.mp hx]
          exact lt_of_lt_of_le hp hut
    · have hstep : advanceValid u (p :: rest) prev = (p :: rest, prev) := by
        simp [advanceValid, hp]
      rw [hstep]
      exact ⟨dropped, hsplit, hprev, hdrop⟩

theorem advanceValid_char (t : ℚ) (vps : List (ℚ × ℚ))
    (hsorted : (vps.map Prod.fst).Sorted (· ≤ ·)) :
    ∀ (valid : List (ℚ × ℚ)) (prev : Option (ℚ × ℚ)),
      TwoPtrInv vps valid prev t →
      (advanceValid t valid prev).2 = prevValidPoint vps t ∧
      (advanceValid t valid prev).1.head? =
        (vps.filter (fun p => t ≤ p.1)).head? := by
  intro valid
  induction valid with
  | nil =>
    intro prev h
    obtain ⟨dropped, hsplit, hprev, hdrop⟩ := h
    have hvps : vps = dropped := by rw [hsplit, List.append_nil]
    constructor
    · show prev = prevValidPoint vps t
      unfold prevValidPoint
      rw [hvps, List.filter_eq_self.mpr (fun p hp => by simpa using hdrop p hp)]
      exact hprev
    · show ([] : List (ℚ × ℚ)).head? = (vps.filter (fun p => t ≤ p.1)).head?
      rw [hvps, List.filter_eq_nil_iff.mpr
        (fun p hp => by simpa using not_le.mpr (hdrop p hp))]
  | cons p rest ih =>
    intro prev h
    obtain ⟨dropped, hsplit, hprev, hdrop⟩ := h
    by_cases hp : p.1 < t
    · have hstep : advanceValid t (p :: rest) prev = advanceValid t rest (some p) := by
        simp [advanceValid, hp]
      rw [hstep]
      apply ih
      refine ⟨dropped ++ [p], ?_, ?_, ?_⟩
      · rw [hsplit, List.append_assoc]
        rfl
      · rw [List.getLast?_concat]
      · intro x hx
        rcases List.mem_append.mp hx with hx | hx
        · exact hdrop x hx
        · rw [List.mem_singleton.mp hx]
          exact hp
    · have hstep : advanceValid t (p :: rest) prev = (p :: rest, prev) := by
        simp [advanceValid, hp]
      rw [hstep]
      have hsuffix : ∀ x ∈ p :: rest, t ≤ x.1 := by
        intro x hx
        rcases List.mem_cons.mp hx with rfl | hx2
        · exact not_lt.mp hp
        · have hsub : ((p :: rest).map Prod.fst).Sublist (vps.map Prod.fst) := by
            rw [hsplit]
            exact ((List.suffix_append dropped (p :: rest)).sublist).map Prod.fst
          have hsorted2 : ((p :: rest).map Prod.fst).Sorted (· ≤ ·) :=
            hsorted.sublist hsub
          have hsorted3 : List.Sorted (· ≤ ·) (p.1 :: rest.map Prod.fst) := by
            rw [List.map_cons] at hsorted2
            exact hsorted2
          have hpx : p.1 ≤ x.1 :=
            (List.sorted_cons.mp hsorted3).1 x.1 (List.mem_map_of_mem Prod.fst hx2)
          exact le_trans (not_lt.mp hp) hpx
      constructor
      · show prev = prevValidPoint vps t
        unfold prevValidPoint
        rw [hsplit, List.filter_append]
        rw [List.filter_eq_self.mpr (fun x hx => by simpa using hdrop x hx)]
        rw [List.filter_eq_nil_iff.mpr
          (fun x hx => by simpa using not_lt.mpr (hsuffix x hx))]
        rw [List.append_nil]
        exact hprev
      · show (p :: rest).head? = (vps.filter (fun x => t ≤ x.1)).head?
        rw [hsplit, List.filter_append]
        rw [List.filter_eq_nil_iff.mpr
          (fun x hx => by simpa using not_le.mpr (hdrop x hx))]
        rw [List.filter_eq_self.mpr (fun x hx => by simpa using hsuffix x hx)]
        rfl

theorem updRow_same (M : RowMap) (t : ℚ) (r : Row) : updRow M t r t = some r := by
  simp [updRow]

theorem applySeriesGo_untouched (m : String) (vMap pMap : ℚ → Option ℚ)
    (samples observedSet : List ℚ) (intervalMs : ℚ) :
    ∀ (ts : List ℚ) (valid : List (ℚ × ℚ)) (prev : Option (ℚ × ℚ)) (M : RowMap)
      (t : ℚ), t ∉ ts →
      applySeriesGo m vMap pMap samples observedSet intervalMs ts valid prev M t
        = M t := by
  intro ts
  induction ts with
  | nil => intro valid prev M t _; rfl
  | cons u rest ih =>
    intro valid prev M t ht
    have hut : t ≠ u := by
      intro h
      exact ht (h ▸ List.mem_cons_self u rest)
    have htr : t ∉ rest := fun h => ht (List.mem_cons_of_mem u h)
    simp only [applySeriesGo]
    by_cases h1 : ((M u).getD (initRow observedSet u)).cols OFFLINE_KEY ≠ JVal.null
    · rw [if_pos h1, ih _ _ _ t htr]
      simp [updRow, hut]
    · rw [if_neg h1]
      by_cases h2 : u ∈ samples
      · rw [if_pos h2, ih _ _ _ t htr]
        simp [updRow, hut]
      · rw [if_neg h2, ih _ _ _ t htr]
        simp [updRow, hut]

theorem applySeriesGo_created (m : String) (vMap pMap : ℚ → Option ℚ)
    (samples observedSet : List ℚ) (intervalMs : ℚ) :
    ∀ (ts : List ℚ) (valid : List (ℚ × ℚ)) (prev : Option (ℚ × ℚ)) (M : RowMap),
      (∀ t r, M t = some r → r.created_at = t) →
      ∀ t r, applySeriesGo m vMap pMap samples observedSet intervalMs ts valid
          prev M t = some r → r.created_at = t := by
  intro ts
  induction ts with
  | nil => intro valid prev M hM t r h; exact hM t r h
  | cons u rest ih =>
    intro valid prev M hM t r h
    have hrow : ((M u).getD (initRow observedSet u)).created_at = u := by
      rcases hMu : M u with _ | r0
      · simp [initRow]
      · simpa using hM u r0 hMu
    have hupd : ∀ row2 : Row, row2.created_at = u →
        ∀ t2 r2, updRow M u row2 t2 = some r2 → r2.created_at = t2 := by
      intro row2 hr2 t2 r2 h2
      unfold updRow at h2
      by_cases ht2 : t2 = u
      · rw [if_pos ht2] at h2
        injection h2 with h3
        rw [← h3, hr2, ht2]
      · rw [if_neg ht2] at h2
        exact hM t2 r2 h2
    simp only [applySeriesGo] at h
    by_cases h1 : ((M u).getD (initRow observedSet u)).cols OFFLINE_KEY ≠ JVal.null
    · rw [if_pos h1] at h
      exact ih _ _ _
        (hupd _ (by rw [Row.created_at_set, Row.created_at_set, hrow])) t r h
    · rw [if_neg h1] at h
      by_cases h2 : u ∈ samples
      · rw [if_pos h2] at h
        exact ih _ _ _
          (hupd _ (by rw [Row.created_at_set, Row.created_at_set, hrow])) t r h
      · rw [if_neg h2] at h
        exact ih _ _ _
          (hupd _ (by rw [Row.created_at_set, Row.created_at_set, hrow])) t r h

theorem applySeriesGo_at (m : String) (vMap pMap : ℚ → Option ℚ)
    (samples observedSet : List ℚ) (intervalMs : ℚ) (vps : List (ℚ × ℚ))
    (hvtimes : ∀ p ∈ vps, p.1 ∈ samples)
    (hvsorted : (vps.map Prod.fst).Sorted (· ≤ ·)) (t : ℚ)
    (hobs : t ∈ observedSet) (hsamp : t ∉ samples) :
    ∀ (ts : List ℚ), ts.Sorted (· < ·) → t ∈ ts →
      ∀ (valid : List (ℚ × ℚ)) (prev : Option (ℚ × ℚ)) (M : RowMap),
        TwoPtrInv vps valid prev t →
        M t = some (initRow observedSet t) →
        ∃ r, applySeriesGo m vMap pMap samples observedSet intervalMs ts valid
            prev M t = some r ∧
          r.cols m = interpolatedValue vps intervalMs t := by
  intro ts
  induction ts with
  | nil => intro _ htmem; simp at htmem
  | cons u rest ih =>
    intro hts htmem valid prev M hinv hM
    rcases List.mem_cons.mp htmem with rfl | htr
    · have hrow : (M t).getD (initRow observedSet t) = initRow observedSet t := by
        rw [hM]
        rfl
      have hnotoff :
          ¬ ((M t).getD (initRow observedSet t)).cols OFFLINE_KEY ≠ JVal.null := by
        rw [hrow]
        simp [initRow, hobs]
      have htnotin : t ∉ rest := by
        intro hmem
        exact absurd ((List.sorted_cons.mp hts).1 t hmem) (lt_irrefl t)
      obtain ⟨hprevEq, hheadEq⟩ := advanceValid_char t vps hvsorted valid prev hinv
      have hfilter : vps.filter (fun p => t ≤ p.1) =
          vps.filter (fun p => t < p.1) := by
        apply List.filter_congr
        intro x hx
        have hne : x.1 ≠ t := fun h => hsamp (h ▸ hvtimes x hx)
        simp only [decide_eq_decide]
        constructor
        · intro hle
          exact lt_of_le_of_ne hle (Ne.symm hne)
        · exact le_of_lt
      simp only [applySeriesGo]
      rw [if_neg hnotoff, if_neg hsamp]
      rw [applySeriesGo_untouched m vMap pMap samples observedSet intervalMs
        rest _ _ _ t htnotin]
      rw [updRow_same]
      refine ⟨_, rfl, ?_⟩
      rw [Row.cols_set_other _ _ _ _ (ne_append_packet_loss m),
        Row.cols_set_same]
      unfold interpolatedValue nextValidPoint
      rw [hprevEq, hheadEq, hfilter]
    · have hut : u < t := (List.sorted_cons.mp hts).1 t htr
      have hMt : ∀ row2 : Row,
          updRow M u row2 t = some (initRow observedSet t) := by
        intro row2
        unfold updRow
        rw [if_neg (ne_of_gt hut)]
        exact hM
      simp only [applySeriesGo]
      by_cases h1 : ((M u).getD (initRow observedSet u)).cols OFFLINE_KEY ≠ JVal.null
      · rw [if_pos h1]
        exact ih hts.of_cons htr _ _ _ hinv (hMt _)
      · rw [if_neg h1]
        by_cases h2 : u ∈ samples
        · rw [if_pos h2]
          exact ih hts.of_cons htr _ _ _ hinv (hMt _)
        · rw [if_neg h2]
          exact ih hts.of_cons htr _ _ _
            (advanceValid_preserves_inv u t (le_of_lt hut) vps valid prev hinv)
            (hMt _)

theorem validPointsOf_times (item : NezhaMonitor) :
    ∀ p ∈ validPointsOf item, p.1 ∈ item.created_at := by
  intro p hp
  unfold validPointsOf at hp
  rcases List.mem_filterMap.mp hp with ⟨q, hq, hfq⟩
  have hq1 : q.1 ∈ item.created_at := by
    rcases q with ⟨a, b⟩
    exact (List.mem_zip hq).1
  cases hqv : q.2 with
  | none =>
    rw [hqv] at hfq
    simp at hfq
  | some v =>
    rw [hqv] at hfq
    simp only [Option.map_some'] at hfq
    injection hfq with hfq2
    rw [← hfq2]
    exact hq1

theorem map_fst_zip_sublist (l1 : List ℚ) :
    ∀ l2 : List (Option ℚ), ((l1.zip l2).map Prod.fst).Sublist l1 := by
  induction l1 with
  | nil => intro l2; simp
  | cons a r ih =>
    intro l2
    cases l2 with
    | nil => simp
    | cons b r2 =>
      simp only [List.zip_cons_cons, List.map_cons]
      exact (ih r2).cons₂ a

theorem mem_fst_filterMap (rest : List (ℚ × Option ℚ)) (b : ℚ)
    (hb : b ∈ (rest.filterMap
      (fun p => p.2.map (fun v => (p.1, v)))).map Prod.fst) :
    b ∈ rest.map Prod.fst := by
  rcases List.mem_map.mp hb with ⟨x, hx, rfl⟩
  rcases List.mem_filterMap.mp hx with ⟨q, hq, hfq⟩
  cases hq2 : q.2 with
  | none =>
    rw [hq2] at hfq
    simp at hfq
  | some v =>
    rw [hq2] at hfq
    simp only [Option.map_some'] at hfq
    injection hfq with hfq2
    rw [← hfq2]
    exact List.mem_map_of_mem Prod.fst hq

theorem filterMap_pairs_sorted :
    ∀ l : List (ℚ × Option ℚ), (l.map Prod.fst).Sorted (· ≤ ·) →
      ((l.filterMap (fun p => p.2.map (fun v => (p.1, v)))).map
        Prod.fst).Sorted (· ≤ ·) := by
  intro l
  induction l with
  | nil => intro _; simp
  | cons p rest ih =>
    intro hl
    rw [List.map_cons] at hl
    have hl2 := hl.of_cons
    cases hp2 : p.2 with
    | none =>
      simp only [List.filterMap_cons, hp2]
      exact ih hl2
    | some v =>
      simp only [List.filterMap_cons, hp2, Option.map_some']
      rw [List.map_cons, List.sorted_cons]
      refine ⟨?_, ih hl2⟩
      intro b hb
      exact (List.sorted_cons.mp hl).1 b (mem_fst_filterMap rest b hb)

theorem validPointsOf_sorted (item : NezhaMonitor)
    (h : item.created_at.Sorted (· ≤ ·)) :
    ((validPointsOf item).map Prod.fst).Sorted (· ≤ ·) := by
  unfold validPointsOf
  apply filterMap_pairs_sorted
  exact List.Pairwise.sublist
    (map_fst_zip_sublist item.created_at item.avg_delay) h

theorem prevValidPoint_lt (vps : List (ℚ × ℚ)) (t : ℚ) (p : ℚ × ℚ)
    (h : prevValidPoint vps t = some p) : p.1 < t := by
  unfold prevValidPoint at h
  rw [List.getLast?_eq_getElem?] at h
  have hmem := List.getElem?_mem h
  simpa using (List.of_mem_filter hmem)

theorem nextValidPoint_gt (vps : List (ℚ × ℚ)) (t : ℚ) (q : ℚ × ℚ)
    (h : nextValidPoint vps t = some q) : t < q.1 := by
  unfold nextValidPoint at h
  have hmem : q ∈ vps.filter (fun p => t < p.1) :=
    List.mem_of_mem_head? (by rw [h]; exact Option.mem_some_self q)
  simpa using (List.of_mem_filter hmem)

theorem interp_between (pv qv r : ℚ) (hr0 : 0 < r) (hr1 : r < 1) :
    (min pv qv ≤ pv + r * (qv - pv) ∧ pv + r * (qv - pv) ≤ max pv qv) ∧
    (pv ≠ qv → min pv qv < pv + r * (qv - pv) ∧
      pv + r * (qv - pv) < max pv qv) := by
  rcases lt_trichotomy pv qv with h | h | h
  · rw [min_eq_left h.le, max_eq_right h.le]
    constructor
    · constructor <;>
        nlinarith [mul_pos hr0 (sub_pos.mpr h),
          mul_pos (sub_pos.mpr hr1) (sub_pos.mpr h)]
    · intro _
      constructor <;>
        nlinarith [mul_pos hr0 (sub_pos.mpr h),
          mul_pos (sub_pos.mpr hr1) (sub_pos.mpr h)]
  · subst h
    rw [min_self, max_self]
    constructor
    · constructor <;> nlinarith
    · intro hne
      exact absurd rfl hne
  · rw [min_eq_right h.le, max_eq_left h.le]
    constructor
    · constructor <;>
        nlinarith [mul_pos hr0 (sub_pos.mpr h),
          mul_pos (sub_pos.mpr hr1) (sub_pos.mpr h)]
    · intro _
      constructor <;>
        nlinarith [mul_pos hr0 (sub_pos.mpr h),
          mul_pos (sub_pos.mpr hr1) (sub_pos.mpr h)]

/-- C1 (amended): at a timeline timestamp that is neither a synthetic offline
point nor an exact sample of the series, a non-null emitted value lies
between the values of the nearest preceding and the nearest following valid
observed point of the series - strictly between them when those two values
differ, and equal to their shared value when they coincide - and the emitted
value is null whenever those two bounding points' time gap exceeds
1.5 x intervalMs or either bound does not exist. -/
theorem c1_interpolation (sqrtQ : ℚ → ℚ) (item : NezhaMonitor)
    (timeline observedSet : List ℚ) (intervalMs t : ℚ)
    (htl : timeline.Sorted (· < ·)) (hca : item.created_at.Sorted (· ≤ ·))
    (ht : t ∈ timeline) (hobs : t ∈ observedSet) (hsamp : t ∉ item.created_at)
    (r : Row) (hr : r ∈ formatData sqrtQ [item] timeline observedSet intervalMs)
    (hrt : r.created_at = t) :
    (∀ v : ℚ, r.cols item.monitor_name = JVal.num v →
      ∃ p q : ℚ × ℚ, prevValidPoint (validPointsOf item) t = some p ∧
        nextValidPoint (validPointsOf item) t = some q ∧
        q.1 - p.1 ≤ intervalMs * OFFLINE_GAP_MULTIPLIER ∧
        min p.2 q.2 ≤ v ∧ v ≤ max p.2 q.2 ∧
        (p.2 ≠ q.2 → min p.2 q.2 < v ∧ v < max p.2 q.2)) ∧
    ((prevValidPoint (validPointsOf item) t = none ∨
      nextValidPoint (validPointsOf item) t = none ∨
      (∀ p q : ℚ × ℚ, prevValidPoint (validPointsOf item) t = some p →
        nextValidPoint (validPointsOf item) t = some q →
        intervalMs * OFFLINE_GAP_MULTIPLIER < q.1 - p.1)) →
      r.cols item.monitor_name = JVal.null) := by
  have hM0 : ∀ t0 r0, initRows timeline observedSet t0 = some r0 →
      r0.created_at = t0 := by
    intro t0 r0 h0
    unfold initRows at h0
    by_cases hmem : t0 ∈ timeline
    · rw [if_pos hmem] at h0
      injection h0 with h1
      rw [← h1]
      rfl
    · rw [if_neg hmem] at h0
      cases h0
  have hform : formatData sqrtQ [item] timeline observedSet intervalMs =
      (List.insertionSort (· ≤ ·) timeline.dedup).filterMap
        (applySeries sqrtQ observedSet intervalMs timeline
          (initRows timeline observedSet) item) := by
    unfold formatData
    rw [List.foldl_cons, List.foldl_nil]
  rw [hform] at hr
  rcases List.mem_filterMap.mp hr with ⟨u, _, huM⟩
  have huM2 : applySeriesGo item.monitor_name (valueMapOf item)
      (plMapOf sqrtQ item) item.created_at observedSet intervalMs timeline
      (validPointsOf item) none (initRows timeline observedSet) u = some r := huM
  have hcreated := applySeriesGo_created item.monitor_name (valueMapOf item)
    (plMapOf sqrtQ item) item.created_at observedSet intervalMs timeline
    (validPointsOf item) none (initRows timeline observedSet) hM0 u r huM2
  have hut : u = t := by rw [← hcreated, hrt]
  rw [hut] at huM2
  have hval : r.cols item.monitor_name =
      interpolatedValue (validPointsOf item) intervalMs t := by
    obtain ⟨r2, hr2, hc2⟩ := applySeriesGo_at item.monitor_name
      (valueMapOf item) (plMapOf sqrtQ item) item.created_at observedSet
      intervalMs (validPointsOf item) (validPointsOf_times item)
      (validPointsOf_sorted item hca) t hobs hsamp timeline htl ht
      (validPointsOf item) none (initRows timeline observedSet)
      ⟨[], rfl, rfl, fun p hp => absurd hp (List.not_mem_nil p)⟩
      (by unfold initRows; rw [if_pos ht])
    rw [huM2] at hr2
    injection hr2 with h3
    rw [h3]
    exact hc2
  constructor
  · intro v hv
    rw [hval] at hv
    unfold interpolatedValue at hv
    rcases hp : prevValidPoint (validPointsOf item) t with _ | p
    · rw [hp] at hv
      simp at hv
    rcases hq : nextValidPoint (validPointsOf item) t with _ | q
    · rw [hp, hq] at hv
      simp at hv
    rw [hp, hq] at hv
    dsimp only at hv
    by_cases hc : 0 < intervalMs ∧
        q.1 - p.1 ≤ intervalMs * OFFLINE_GAP_MULTIPLIER
    · rw [if_pos hc] at hv
      injection hv with hv2
      have hpt : p.1 < t := prevValidPoint_lt _ _ _ hp
      have htq : t < q.1 := nextValidPoint_gt _ _ _ hq
      have hd : 0 < q.1 - p.1 := by linarith
      have hr0 : 0 < (t - p.1) / (q.1 - p.1) := div_pos (by linarith) hd
      have hr1 : (t - p.1) / (q.1 - p.1) < 1 := (div_lt_one hd).mpr (by linarith)
      obtain ⟨hb1, hb2⟩ :=
        interp_between p.2 q.2 ((t - p.1) / (q.1 - p.1)) hr0 hr1
      refine ⟨p, q, rfl, rfl, hc.2, ?_, ?_, ?_⟩
      · rw [← hv2]
        exact hb1.1
      · rw [← hv2]
        exact hb1.2
      · intro hne
        rw [← hv2]
        exact hb2 hne
    · rw [if_neg hc] at hv
      cases hv
  · intro hcase
    rw [hval]
    unfold interpolatedValue
    rcases hp : prevValidPoint (validPointsOf item) t with _ | p
    · rfl
    rcases hq : nextValidPoint (validPointsOf item) t with _ | q
    · rfl
    rcases hcase with h | h | h
    · rw [hp] at h
      cases h
    · rw [hq] at h
      cases h
    · have hgap := h p q hp hq
      dsimp only
      rw [if_neg (fun hcc => absurd hcc.2 (not_le.mpr hgap))]

def c1Item : NezhaMonitor :=
  { monitor_id := 0, monitor_name := "M", server_id := 0, server_name := "s",
    created_at := [0, 2], avg_delay := [some 10, some 20], packet_loss := none }

def c1Rows : List Row := formatData (fun _ => 0) [c1Item] [0, 1, 2] [0, 1, 2] 2

theorem c1_row_mem : c1Rows.getD 1 default ∈ c1Rows := by
  have hlen : 1 < c1Rows.length := by with_unfolding_all decide
  rw [List.getD_eq_getElem _ _ hlen]
  exact List.getElem_mem hlen

theorem c1_witness :
    (1 : ℚ) ∈ ([0, 1, 2] : List ℚ) ∧
    ((∀ v : ℚ, (c1Rows.getD 1 default).cols c1Item.monitor_name = JVal.num v →
      ∃ p q : ℚ × ℚ, prevValidPoint (validPointsOf c1Item) 1 = some p ∧
        nextValidPoint (validPointsOf c1Item) 1 = some q ∧
        q.1 - p.1 ≤ 2 * OFFLINE_GAP_MULTIPLIER ∧
        min p.2 q.2 ≤ v ∧ v ≤ max p.2 q.2 ∧
        (p.2 ≠ q.2 → min p.2 q.2 < v ∧ v < max p.2 q.2)) ∧
     ((prevValidPoint (validPointsOf c1Item) 1 = none ∨
       nextValidPoint (validPointsOf c1Item) 1 = none ∨
       (∀ p q : ℚ × ℚ, prevValidPoint (validPointsOf c1Item) 1 = some p →
         nextValidPoint (validPointsOf c1Item) 1 = some q →
         2 * OFFLINE_GAP_MULTIPLIER < q.1 - p.1)) →
       (c1Rows.getD 1 default).cols c1Item.monitor_name = JVal.null)) :=
  ⟨by decide,
    c1_interpolation (fun _ => 0) c1Item [0, 1, 2] [0, 1, 2] 2 1
      (by decide) (by decide) (by decide) (by decide) (by decide)
      (c1Rows.getD 1 default) c1_row_mem (by with_unfolding_all decide)⟩

def c1EqItem : NezhaMonitor :=
  { monitor_id := 0, monitor_name := "M", server_id := 0, server_name := "s",
    created_at := [0, 2], avg_delay := [some 10, some 10], packet_loss := none }

/-- C1 counterexample: with equal bounding values the Formatter emits the
shared value 10 at the non-sampled, non-offline timestamp 1; 10 does not lie
strictly between the bounding values 10 and 10, refuting the
strictly-between claim as stated. -/
theorem c1_counterexample :
    ((formatData (fun _ => 0) [c1EqItem] [0, 1, 2] [0, 1, 2] 2).getD 1
        default).cols "M" = JVal.num 10 ∧
    prevValidPoint (validPointsOf c1EqItem) 1 = some (0, 10) ∧
    nextValidPoint (validPointsOf c1EqItem) 1 = some (2, 10) ∧
    ¬ (min (10 : ℚ) 10 < 10 ∧ (10 : ℚ) < max (10 : ℚ) 10) := by
  refine ⟨?_, ?_, ?_, ?_⟩ <;> with_unfolding_all decide

/-! ## Theorems for C9 -/

theorem applySeriesGo_some (m : String) (vMap pMap : ℚ → Option ℚ)
    (samples observedSet : List ℚ) (intervalMs : ℚ) :
    ∀ (ts : List ℚ) (valid : List (ℚ × ℚ)) (prev : Option (ℚ × ℚ)) (M : RowMap)
      (t : ℚ), (M t).isSome →
      ((applySeriesGo m vMap pMap samples observedSet intervalMs ts valid prev
        M) t).isSome := by
  intro ts
  induction ts with
  | nil => intro valid prev M t h; exact h
  | cons u rest ih =>
    intro valid prev M t h
    have hupd : ∀ row2 : Row, ((updRow M u row2) t).isSome := by
      intro row2
      unfold updRow
      by_cases ht : t = u
      · rw [if_pos ht]; rfl
      · rw [if_neg ht]; exact h
    simp only [applySeriesGo]
    by_cases h1 : ((M u).getD (initRow observedSet u)).cols OFFLINE_KEY ≠ JVal.null
    · rw [if_pos h1]
      exact ih _ _ _ t (hupd _)
    · rw [if_neg h1]
      by_cases h2 : u ∈ samples
      · rw [if_pos h2]
        exact ih _ _ _ t (hupd _)
      · rw [if_neg h2]
        exact ih _ _ _ t (hupd _)

theorem foldl_applySeries_created (sqrtQ : ℚ → ℚ) (observedSet : List ℚ)
    (intervalMs : ℚ) (timeline : List ℚ) :
    ∀ (ds : List NezhaMonitor) (M : RowMap),
      (∀ t r, M t = some r → r.created_at = t) →
      ∀ t r, (ds.foldl (applySeries sqrtQ observedSet intervalMs timeline) M) t
          = some r → r.created_at = t := by
  intro ds
  induction ds with
  | nil => intro M hM; exact hM
  | cons d rest ih =>
    intro M hM
    exact ih _ (applySeriesGo_created d.monitor_name (valueMapOf d)
      (plMapOf sqrtQ d) d.created_at observedSet intervalMs timeline
      (validPointsOf d) none M hM)

theorem foldl_applySeries_some (sqrtQ : ℚ → ℚ) (observedSet : List ℚ)
    (intervalMs : ℚ) (timeline : List ℚ) :
    ∀ (ds : List NezhaMonitor) (M : RowMap) (t : ℚ), (M t).isSome →
      (((ds.foldl (applySeries sqrtQ observedSet intervalMs timeline) M)) t).isSome := by
  intro ds
  induction ds with
  | nil => intro M t h; exact h
  | cons d rest ih =>
    intro M t h
    exact ih _ t (applySeriesGo_some d.monitor_name (valueMapOf d)
      (plMapOf sqrtQ d) d.created_at observedSet intervalMs timeline
      (validPointsOf d) none M t h)

theorem filterMap_map_created (M : RowMap) :
    ∀ l : List ℚ, (∀ t ∈ l, ∃ r, M t = some r ∧ r.created_at = t) →
      (l.filterMap M).map Row.created_at = l := by
  intro l
  induction l with
  | nil => intro _; rfl
  | cons t rest ih =>
    intro h
    obtain ⟨r, hr, hrc⟩ := h t (by simp)
    rw [List.filterMap_cons, hr, List.map_cons, hrc,
      ih (fun u hu => h u (List.mem_cons_of_mem t hu))]

theorem formatData_map_created (sqrtQ : ℚ → ℚ) (rawData : List NezhaMonitor)
    (timeline observedSet : List ℚ) (intervalMs : ℚ) :
    (formatData sqrtQ rawData timeline observedSet intervalMs).map
      Row.created_at = List.insertionSort (· ≤ ·) timeline.dedup := by
  unfold formatData
  apply filterMap_map_created
  intro t htmem
  have htl : t ∈ timeline := List.mem_dedup.mp
    ((List.perm_insertionSort (· ≤ ·) timeline.dedup).mem_iff.mp htmem)
  have hinit : (initRows timeline observedSet t).isSome := by
    unfold initRows
    rw [if_pos htl]
    rfl
  have hsome := foldl_applySeries_some sqrtQ observedSet intervalMs timeline
    rawData (initRows timeline observedSet) t hinit
  obtain ⟨r, hr⟩ := Option.isSome_iff_exists.mp hsome
  have hM0 : ∀ t0 r0, initRows timeline observedSet t0 = some r0 →
      r0.created_at = t0 := by
    intro t0 r0 h0
    unfold initRows at h0
    by_cases hmem : t0 ∈ timeline
    · rw [if_pos hmem] at h0
      injection h0 with h1
      rw [← h1]
      rfl
    · rw [if_neg hmem] at h0
      cases h0
  exact ⟨r, hr, foldl_applySeries_created sqrtQ observedSet intervalMs timeline
    rawData (initRows timeline observedSet) hM0 t r hr⟩

theorem applySeriesGo_offline (m : String) (vMap pMap : ℚ → Option ℚ)
    (samples observedSet : List ℚ) (intervalMs : ℚ) (t : ℚ)
    (hobs : t ∉ observedSet) (hm1 : OFFLINE_KEY ≠ m)
    (hm2 : OFFLINE_KEY ≠ m ++ "_packet_loss") :
    ∀ (ts : List ℚ), ts.Sorted (· < ·) → t ∈ ts →
      ∀ (valid : List (ℚ × ℚ)) (prev : Option (ℚ × ℚ)) (M : RowMap),
        M t = some (initRow observedSet t) →
        ∃ r, applySeriesGo m vMap pMap samples observedSet intervalMs ts valid
            prev M t = some r ∧
          r.cols m = JVal.null ∧ r.cols OFFLINE_KEY = JVal.num 1 := by
  intro ts
  induction ts with
  | nil => intro _ htmem; simp at htmem
  | cons u rest ih =>
    intro hts htmem valid prev M hM
    rcases List.mem_cons.mp htmem with rfl | htr
    · have hrow : (M t).getD (initRow observedSet t) = initRow observedSet t := by
        rw [hM]
        rfl
      have hoffv : (initRow observedSet t).cols OFFLINE_KEY = JVal.num 1 := by
        simp [initRow, hobs]
      have hoff : ((M t).getD (initRow observedSet t)).cols OFFLINE_KEY
          ≠ JVal.null := by
        rw [hrow, hoffv]
        simp
      have htnotin : t ∉ rest := by
        intro hmem
        exact absurd ((List.sorted_cons.mp hts).1 t hmem) (lt_irrefl t)
      simp only [applySeriesGo]
      rw [if_pos hoff]
      rw [applySeriesGo_untouched m vMap pMap samples observedSet intervalMs
        rest _ _ _ t htnotin]
      rw [updRow_same]
      refine ⟨_, rfl, ?_, ?_⟩
      · rw [Row.cols_set_other _ _ _ _ (ne_append_packet_loss m),
          Row.cols_set_same]
      · rw [Row.cols_set_other _ _ _ _ hm2, Row.cols_set_other _ _ _ _ hm1,
          hrow, hoffv]
    · have hut : u < t := (List.sorted_cons.mp hts).1 t htr
      have hMt : ∀ row2 : Row,
          updRow M u row2 t = some (initRow observedSet t) := by
        intro row2
        unfold updRow
        rw [if_neg (ne_of_gt hut)]
        exact hM
      simp only [applySeriesGo]
      by_cases h1 : ((M u).getD (initRow observedSet u)).cols OFFLINE_KEY ≠ JVal.null
      · rw [if_pos h1]
        exact ih hts.of_cons htr _ _ _ (hMt _)
      · rw [if_neg h1]
        by_cases h2 : u ∈ samples
        · rw [if_pos h2]
          exact ih hts.of_cons htr _ _ _ (hMt _)
        · rw [if_neg h2]
          exact ih hts.of_cons htr _ _ _ (hMt _)

theorem applySeriesGo_sample (m : String) (vMap pMap : ℚ → Option ℚ)
    (samples observedSet : List ℚ) (intervalMs : ℚ) (t : ℚ)
    (hobs : t ∈ observedSet) (hsamp : t ∈ samples) :
    ∀ (ts : List ℚ), ts.Sorted (· < ·) → t ∈ ts →
      ∀ (valid : List (ℚ × ℚ)) (prev : Option (ℚ × ℚ)) (M : RowMap),
        M t = some (initRow observedSet t) →
        ∃ r, applySeriesGo m vMap pMap samples observedSet intervalMs ts valid
            prev M t = some r ∧
          r.cols m = jvalOfOpt (vMap t) ∧
          r.cols (m ++ "_packet_loss") = jvalOfOpt (pMap t) := by
  intro ts
  induction ts with
  | nil => intro _ htmem; simp at htmem
  | cons u rest ih =>
    intro hts htmem valid prev M hM
    rcases List.mem_cons.mp htmem with rfl | htr
    · have hrow : (M t).getD (initRow observedSet t) = initRow observedSet t := by
        rw [hM]
        rfl
      have hoffv : (initRow observedSet t).cols OFFLINE_KEY = JVal.null := by
        simp [initRow, hobs]
      have hoff : ¬ ((M t).getD (initRow observedSet t)).cols OFFLINE_KEY
          ≠ JVal.null := by
        rw [hrow, hoffv]
        simp
      have htnotin : t ∉ rest := by
        intro hmem
        exact absurd ((List.sorted_cons.mp hts).1 t hmem) (lt_irrefl t)
      simp only [applySeriesGo]
      rw [if_neg hoff, if_pos hsamp]
      rw [applySeriesGo_untouched m vMap pMap samples observedSet intervalMs
        rest _ _ _ t htnotin]
      rw [updRow_same]
      refine ⟨_, rfl, ?_, ?_⟩
      · rw [Row.cols_set_other _ _ _ _ (ne_append_packet_loss m),
          Row.cols_set_same]
      · rw [Row.cols_set_same]
    · have hut : u < t := (List.sorted_cons.mp hts).1 t htr
      have hMt : ∀ row2 : Row,
          updRow M u row2 t = some (initRow observedSet t) := by
        intro row2
        unfold updRow
        rw [if_neg (ne_of_gt hut)]
        exact hM
      simp only [applySeriesGo]
      by_cases h1 : ((M u).getD (initRow observedSet u)).cols OFFLINE_KEY ≠ JVal.null
      · rw [if_pos h1]
        exact ih hts.of_cons htr _ _ _ (hMt _)
      · rw [if_neg h1]
        by_cases h2 : u ∈ samples
        · rw [if_pos h2]
          exact ih hts.of_cons htr _ _ _ (hMt _)
        · rw [if_neg h2]
          exact ih hts.of_cons htr _ _ _ (hMt _)

def c9Series : NezhaMonitor :=
  { monitor_id := 0, monitor_name := "m", server_id := 0, server_name := "s",
    created_at := [0, 60000, 300000], avg_delay := [some 10, some 20, some 30],
    packet_loss := none }

theorem c9_pipeline_eval :
    buildTimelineData [c9Series] 0 300000 =
      ⟨[0, 60000, 210000, 300000], [⟨210000, 300000⟩], [0, 60000, 300000],
        150000⟩ := by
  have hceil : (⌈(3 : ℚ) / 5⌉ : ℤ) = 1 := by
    rw [Int.ceil_eq_iff]
    norm_num
  have hdeltas : intervalDeltas [c9Series] = [60000, 240000] := by
    norm_num [intervalDeltas, positiveDeltas, c9Series, List.filterMap_cons]
  have hmedian : getMedianValue [60000, 240000] = 150000 := by
    norm_num [getMedianValue, List.insertionSort, List.orderedInsert,
      List.getD_cons_zero, List.getD_cons_succ]
  have hinterval : getTypicalIntervalMs [c9Series] = 150000 := by
    norm_num [getTypicalIntervalMs, hdeltas, hmedian, round_eq]
  have hobs : collectObservedSet [c9Series] 0 300000 = [0, 60000, 300000] := by
    norm_num [collectObservedSet, setAdd, c9Series]
  have hsortobs : List.insertionSort (· ≤ ·) ([0, 60000, 300000] : List ℚ) =
      [0, 60000, 300000] := by
    norm_num [List.insertionSort, List.orderedInsert]
  have hspans : buildOfflineSpans [0, 60000, 300000] 0 300000 150000 =
      [⟨210000, 300000⟩] := by
    norm_num [buildOfflineSpans, internalOfflineSpans, OFFLINE_GAP_MULTIPLIER,
      hsortobs, List.cons_ne_nil]
  have hpoints : buildOfflinePoints [⟨210000, 300000⟩] 150000 = [210000] := by
    norm_num [buildOfflinePoints, offlinePointsOfSpan, hceil, List.range_succ,
      List.range_zero, List.flatMap_cons, List.flatMap_nil]
  have hmerge : List.foldl setAdd ([0, 60000, 300000] : List ℚ) [210000] =
      [0, 60000, 300000, 210000] := by
    norm_num [setAdd]
  have hsorttl : List.insertionSort (· ≤ ·)
      ([0, 60000, 300000, 210000] : List ℚ) = [0, 60000, 210000, 300000] := by
    norm_num [List.insertionSort, List.orderedInsert]
  unfold buildTimelineData
  simp only [hobs, hinterval, hsortobs, hspans, hpoints, hmerge, hsorttl]

/-- C9 (amended): for the scenario series the pipeline derives
intervalMs = 150000 (the median of the deltas 60000 and 240000), so the gap
240000 exceeds the threshold 225000 and exactly one synthetic offline point
is materialized, at t = 210000, between t = 60000 and t = 300000; the
formatted point at t = 210000 has a null value and carries the offline
marker (it is not interpolated), the rows at the three sample times carry
the sampled values 10, 20 and 30, and no formatted point exists at
t = 120000 at all. -/
theorem c9_offline_scenario :
    (buildTimelineData [c9Series] 0 300000).intervalMs = 150000 ∧
    (buildTimelineData [c9Series] 0 300000).offlineSpans =
      [⟨210000, 300000⟩] ∧
    (buildTimelineData [c9Series] 0 300000).timeline =
      [0, 60000, 210000, 300000] ∧
    (buildTimelineData [c9Series] 0 300000).observedSet =
      [0, 60000, 300000] ∧
    ((60000 : ℚ) < 210000 ∧ (210000 : ℚ) < 300000) ∧
    ((formatData (fun _ => 0) [c9Series] [0, 60000, 210000, 300000]
        [0, 60000, 300000] 150000).map Row.created_at =
      [0, 60000, 210000, 300000]) ∧
    ((formatData (fun _ => 0) [c9Series] [0, 60000, 210000, 300000]
        [0, 60000, 300000] 150000).all
      (fun r => decide (r.created_at ≠ 120000) &&
        ((!(decide (r.created_at = 210000)) ||
          (decide (r.cols "m" = JVal.null) &&
           decide (r.cols OFFLINE_KEY = JVal.num 1))) &&
         ((!(decide (r.created_at = 0)) ||
            decide (r.cols "m" = JVal.num 10)) &&
          ((!(decide (r.created_at = 60000)) ||
             decide (r.cols "m" = JVal.num 20)) &&
           (!(decide (r.created_at = 300000)) ||
             decide (r.cols "m" = JVal.num 30))))))) = true := by
  have hsd : List.insertionSort (· ≤ ·)
      (([0, 60000, 210000, 300000] : List ℚ).dedup) =
      [0, 60000, 210000, 300000] := by
    norm_num [List.dedup_cons_of_not_mem, List.insertionSort,
      List.orderedInsert]
  have hmap := formatData_map_created (fun _ => 0) [c9Series]
    [0, 60000, 210000, 300000] [0, 60000, 300000] 150000
  rw [hsd] at hmap
  refine ⟨by rw [c9_pipeline_eval], by rw [c9_pipeline_eval],
    by rw [c9_pipeline_eval], by rw [c9_pipeline_eval], by norm_num, hmap, ?_⟩
  rw [List.all_eq_true]
  intro r hr
  have hcmem : r.created_at ∈ ([0, 60000, 210000, 300000] : List ℚ) := by
    have h1 := List.mem_map_of_mem Row.created_at hr
    rwa [hmap] at h1
  simp only [Bool.and_eq_true, Bool.or_eq_true, Bool.not_eq_true',
    decide_eq_true_eq, decide_eq_false_iff_not]
  simp only [List.mem_cons, List.not_mem_nil, or_false] at hcmem
  have hcols : r.created_at = 210000 →
      r.cols "m" = JVal.null ∧ r.cols OFFLINE_KEY = JVal.num 1 := by
    intro hc210
    have hform : formatData (fun _ => 0) [c9Series] [0, 60000, 210000, 300000]
        [0, 60000, 300000] 150000 =
        (List.insertionSort (· ≤ ·)
          (([0, 60000, 210000, 300000] : List ℚ).dedup)).filterMap
          (applySeries (fun _ => 0) [0, 60000, 300000] 150000
            [0, 60000, 210000, 300000]
            (initRows [0, 60000, 210000, 300000] [0, 60000, 300000])
            c9Series) := by
      unfold formatData
      rw [List.foldl_cons, List.foldl_nil]
    rw [hform] at hr
    rcases List.mem_filterMap.mp hr with ⟨u, _, huM⟩
    have huM2 : applySeriesGo c9Series.monitor_name (valueMapOf c9Series)
        (plMapOf (fun _ => 0) c9Series) c9Series.created_at [0, 60000, 300000]
        150000 [0, 60000, 210000, 300000] (validPointsOf c9Series) none
        (initRows [0, 60000, 210000, 300000] [0, 60000, 300000]) u =
        some r := huM
    have hM0 : ∀ t0 r0, initRows [0, 60000, 210000, 300000] [0, 60000, 300000]
        t0 = some r0 → r0.created_at = t0 := by
      intro t0 r0 h0
      unfold initRows at h0
      by_cases hmem : t0 ∈ ([0, 60000, 210000, 300000] : List ℚ)
      · rw [if_pos hmem] at h0
        injection h0 with h1
        rw [← h1]
        rfl
      · rw [if_neg hmem] at h0
        cases h0
    have hcreated := applySeriesGo_created c9Series.monitor_name
      (valueMapOf c9Series) (plMapOf (fun _ => 0) c9Series) c9Series.created_at
      [0, 60000, 300000] 150000 [0, 60000, 210000, 300000]
      (validPointsOf c9Series) none
      (initRows [0, 60000, 210000, 300000] [0, 60000, 300000]) hM0 u r huM2
    have hu210 : u = (210000 : ℚ) := by rw [← hcreated, hc210]
    rw [hu210] at huM2
    obtain ⟨r2, hr2, hc1, hc2⟩ := applySeriesGo_offline c9Series.monitor_name
      (valueMapOf c9Series) (plMapOf (fun _ => 0) c9Series) c9Series.created_at
      [0, 60000, 300000] 150000 210000 (by norm_num) (by decide) (by decide)
      [0, 60000, 210000, 300000] (by norm_num) (by norm_num)
      (validPointsOf c9Series) none
      (initRows [0, 60000, 210000, 300000] [0, 60000, 300000])
      (by unfold initRows; rw [if_pos (by norm_num)])
    rw [huM2] at hr2
    injection hr2 with h3
    rw [h3]
    exact ⟨hc1, hc2⟩
  have hval : ∀ t v : ℚ, t ∈ ([0, 60000, 300000] : List ℚ) →
      valueMapOf c9Series t = some v → r.created_at = t →
      r.cols "m" = JVal.num v := by
    intro t v htl9 hvmap hct
    have hform : formatData (fun _ => 0) [c9Series] [0, 60000, 210000, 300000]
        [0, 60000, 300000] 150000 =
        (List.insertionSort (· ≤ ·)
          (([0, 60000, 210000, 300000] : List ℚ).dedup)).filterMap
          (applySeries (fun _ => 0) [0, 60000, 300000] 150000
            [0, 60000, 210000, 300000]
            (initRows [0, 60000, 210000, 300000] [0, 60000, 300000])
            c9Series) := by
      unfold formatData
      rw [List.foldl_cons, List.foldl_nil]
    rw [hform] at hr
    rcases List.mem_filterMap.mp hr with ⟨u, _, huM⟩
    have huM2 : applySeriesGo c9Series.monitor_name (valueMapOf c9Series)
        (plMapOf (fun _ => 0) c9Series) c9Series.created_at [0, 60000, 300000]
        150000 [0, 60000, 210000, 300000] (validPointsOf c9Series) none
        (initRows [0, 60000, 210000, 300000] [0, 60000, 300000]) u =
        some r := huM
    have hM0 : ∀ t0 r0, initRows [0, 60000, 210000, 300000] [0, 60000, 300000]
        t0 = some r0 → r0.created_at = t0 := by
      intro t0 r0 h0
      unfold initRows at h0
      by_cases hmem : t0 ∈ ([0, 60000, 210000, 300000] : List ℚ)
      · rw [if_pos hmem] at h0
        injection h0 with h1
        rw [← h1]
        rfl
      · rw [if_neg hmem] at h0
        cases h0
    have hcreated := applySeriesGo_created c9Series.monitor_name
      (valueMapOf c9Series) (plMapOf (fun _ => 0) c9Series) c9Series.created_at
      [0, 60000, 300000] 150000 [0, 60000, 210000, 300000]
      (validPointsOf c9Series) none
      (initRows [0, 60000, 210000, 300000] [0, 60000, 300000]) hM0 u r huM2
    have hut : u = t := by rw [← hcreated, hct]
    rw [hut] at huM2
    have htl : t ∈ ([0, 60000, 210000, 300000] : List ℚ) := by
      simp only [List.mem_cons, List.not_mem_nil, or_false] at htl9 ⊢
      rcases htl9 with rfl | rfl | rfl
      · norm_num
      · norm_num
      · norm_num
    obtain ⟨r2, hr2, hc1, _⟩ := applySeriesGo_sample c9Series.monitor_name
      (valueMapOf c9Series) (plMapOf (fun _ => 0) c9Series) c9Series.created_at
      [0, 60000, 300000] 150000 t htl9 htl9
      [0, 60000, 210000, 300000] (by norm_num) htl
      (validPointsOf c9Series) none
      (initRows [0, 60000, 210000, 300000] [0, 60000, 300000])
      (by unfold initRows; rw [if_pos htl])
    rw [huM2] at hr2
    injection hr2 with h3
    rw [h3]
    have hc1m : r2.cols "m" = jvalOfOpt (valueMapOf c9Series t) := hc1
    rw [hc1m, hvmap]
    rfl
  have hvm : valueMapOf c9Series 0 = some 10 ∧
      valueMapOf c9Series 60000 = some 20 ∧
      valueMapOf c9Series 300000 = some 30 := by decide
  rcases hcmem with hc | hc | hc | hc
  · exact ⟨by rw [hc]; norm_num, Or.inl (by rw [hc]; norm_num),
      Or.inr (hval 0 10 (by norm_num [List.mem_cons]) hvm.1 hc),
      Or.inl (by rw [hc]; norm_num), Or.inl (by rw [hc]; norm_num)⟩
  · exact ⟨by rw [hc]; norm_num, Or.inl (by rw [hc]; norm_num),
      Or.inl (by rw [hc]; norm_num),
      Or.inr (hval 60000 20 (by norm_num [List.mem_cons]) hvm.2.1 hc),
      Or.inl (by rw [hc]; norm_num)⟩
  · exact ⟨by rw [hc]; norm_num, Or.inr (hcols hc),
      Or.inl (by rw [hc]; norm_num), Or.inl (by rw [hc]; norm_num),
      Or.inl (by rw [hc]; norm_num)⟩
  · exact ⟨by rw [hc]; norm_num, Or.inl (by rw [hc]; norm_num),
      Or.inl (by rw [hc]; norm_num), Or.inl (by rw [hc]; norm_num),
      Or.inr (hval 300000 30 (by norm_num [List.mem_cons]) hvm.2.2 hc)⟩

/-- C9 counterexample: the pipeline does not run this scenario with
intervalMs = 60000 - it derives 150000 - and the timeline contains no
timestamp 120000, so there is no formatted point at t = 120000 whose value
could be null as the claim asserts. -/
theorem c9_counterexample :
    (buildTimelineData [c9Series] 0 300000).intervalMs ≠ 60000 ∧
    (120000 : ℚ) ∉ (buildTimelineData [c9Series] 0 300000).timeline := by
  rw [c9_pipeline_eval]
  constructor
  · norm_num
  · norm_num

/-! ## Outlier-Suppression Peak-Cut Filter (processedData, NetworkChart.tsx 329-434) -/

/-- The JS expression item[k] ?? null used by the single-selection remap. -/
def jvalOrNull : JVal → JVal
  | JVal.missing => JVal.null
  | v => v

/-- The single-selection remap of processedData: rows carrying only the
selected monitor's delay, its packet loss and the offline marker. -/
def remapSingle (selected : String) (item : Row) : Row :=
  { created_at := item.created_at,
    cols := fun k =>
      if k = "avg_delay" then jvalOrNull (item.cols selected)
      else if k = "packet_loss" then
        jvalOrNull (item.cols (selected ++ "_packet_loss"))
      else if k = OFFLINE_KEY then jvalOrNull (item.cols OFFLINE_KEY)
      else JVal.missing }

/-- processValues: median, MAD scaled by 1.4826, rejection of values beyond
3 MAD or beyond 3 times the median, then an EWMA with alpha 0.3 over the
survivors seeded by the first survivor; the bare median when nothing
survives; none only for an empty input. -/
def processValues (values : List ℚ) : Option ℚ :=
  if values = [] then none
  else
    let median := getMedianValue values
    let deviations := values.map (fun v => |v - median|)
    let medianDeviation := getMedianValue deviations * (14826 / 10000)
    let validValues := values.filter
      (fun v => |v - median| ≤ 3 * medianDeviation ∧ v ≤ median * 3)
    if validValues = [] then some median
    else some (validValues.tail.foldl
      (fun e v => 3/10 * v + 7/10 * e) (validValues.headD 0))

/-- One key of the keysToProcess loop body: collect the window's numeric
values for the key and, when any exist, blend the processed window value
into the running per-key EWMA history and overwrite the key on the row.
The single-selection path of the source runs the identical body with the
single key avg_delay. -/
def peakKeyStep (window : List Row) (st : (String → Option ℚ) × Row)
    (k : String) : (String → Option ℚ) × Row :=
  let values := (window.map (fun w => w.cols k)).filterMap
    (fun j => match j with
      | JVal.num q => some q
      | _ => none)
  if values = [] then st
  else
    match processValues values with
    | none => st
    | some processed =>
      let newVal := match st.1 k with
        | none => processed
        | some old => 3/10 * processed + 7/10 * old
      (fun q => if q = k then some newVal else st.1 q,
        st.2.set k (JVal.num newVal))

/-- The data.map body of processedData: rows with index below
windowSize - 1 = 10 pass through unchanged; afterwards every processed key
is smoothed over the 11-point window of the original data ending at the
row, with the EWMA history threaded through the traversal. -/
def peakGo (keys : List String) (data : List Row) :
    List Row → ℕ → (String → Option ℚ) → List Row
  | [], _, _ => []
  | point :: rest, i, h =>
    if i < 10 then point :: peakGo keys data rest (i + 1) h
    else
      let window := (data.drop (i - 10)).take 11
      let st := keys.foldl (peakKeyStep window) (h, point)
      st.2 :: peakGo keys data rest (i + 1) st.1

/-- processedData: single-selection remap of the base rows, then, only when
the peak-cut switch is on, the windowed smoothing pass over avg_delay (single
selection), the selected keys, or every monitor key. -/
def processedData (isPeakEnabled : Bool)
    (activeCharts chartDataKey : List String) (formattedData : List Row) :
    List Row :=
  let baseData := if activeCharts.length = 1 then
      formattedData.map (remapSingle (activeCharts.headD ""))
    else formattedData
  if isPeakEnabled then
    let keys := if activeCharts.length = 1 then ["avg_delay"]
      else if 0 < activeCharts.length then activeCharts else chartDataKey
    peakGo keys baseData baseData 0 (fun _ => none)
  else baseData

/-! ## Theorems for C8 -/

theorem length_peakGo (keys : List String) (data : List Row) :
    ∀ (l : List Row) (i : ℕ) (h : String → Option ℚ),
      (peakGo keys data l i h).length = l.length := by
  intro l
  induction l with
  | nil => intro i h; rfl
  | cons point rest ih =>
    intro i h
    simp only [peakGo]
    by_cases hi : i < 10
    · rw [if_pos hi]
      simp [ih]
    · rw [if_neg hi]
      simp [ih]

theorem foldl_peakKeyStep_cols (window : List Row) (k : String) :
    ∀ (ks : List String) (st : (String → Option ℚ) × Row),
      ((∀ w ∈ window, ∀ q : ℚ, w.cols k ≠ JVal.num q) ∨ k ∉ ks) →
      ((ks.foldl (peakKeyStep window) st).2).cols k = st.2.cols k := by
  intro ks
  induction ks with
  | nil => intro st _; rfl
  | cons k2 ks ih =>
    intro st hk
    rw [List.foldl_cons]
    have hstep : ((peakKeyStep window st k2).2).cols k = st.2.cols k := by
      unfold peakKeyStep
      by_cases hv : ((window.map (fun w => w.cols k2)).filterMap
          (fun j => match j with
            | JVal.num q => some q
            | _ => none)) = []
      · rw [if_pos hv]
      · rw [if_neg hv]
        rcases hpv : processValues ((window.map (fun w => w.cols k2)).filterMap
            (fun j => match j with
              | JVal.num q => some q
              | _ => none)) with _ | processed
        · rw [hpv]
        · rw [hpv]
          by_cases hkk : k = k2
          · exfalso
            rcases hk with hwin | hmem
            · apply hv
              rw [List.filterMap_eq_nil_iff]
              intro j hj
              rcases List.mem_map.mp hj with ⟨w, hw, rfl⟩
              rcases hj2 : w.cols k2 with _ | _ | q
              · rfl
              · rfl
              · exact absurd (hkk ▸ hj2) (by exact fun h => hwin w hw q h)
            · exact hmem (hkk ▸ List.mem_cons_self k2 ks)
          · exact Row.cols_set_other _ _ _ _ hkk
    have hk2 : (∀ w ∈ window, ∀ q : ℚ, w.cols k ≠ JVal.num q) ∨ k ∉ ks := by
      rcases hk with hwin | hmem
      · exact Or.inl hwin
      · exact Or.inr (fun h => hmem (List.mem_cons_of_mem k2 h))
    rw [ih _ hk2, hstep]

theorem peakGo_getD (keys : List String) (data : List Row) :
    ∀ (l : List Row) (i0 : ℕ) (h : String → Option ℚ) (j : ℕ), j < l.length →
      (i0 + j < 10 →
        (peakGo keys data l i0 h).getD j default = l.getD j default) ∧
      (∀ k : String, 10 ≤ i0 + j →
        ((∀ w ∈ (data.drop (i0 + j - 10)).take 11, ∀ q : ℚ,
            w.cols k ≠ JVal.num q) ∨ k ∉ keys) →
        ((peakGo keys data l i0 h).getD j default).cols k =
          (l.getD j default).cols k) := by
  intro l
  induction l with
  | nil => intro i0 h j hj; exact absurd hj (by simp)
  | cons point rest ih =>
    intro i0 h j hj
    cases j with
    | zero =>
      constructor
      · intro hlt
        have hi0 : i0 < 10 := by omega
        simp only [peakGo, if_pos hi0]
        rfl
      · intro k hge hwin
        have hi0 : ¬ i0 < 10 := by omega
        simp only [peakGo, if_neg hi0]
        have := foldl_peakKeyStep_cols ((data.drop (i0 - 10)).take 11) k keys
          (h, point) (by simpa using hwin)
        simpa using this
    | succ j2 =>
      have hj2 : j2 < rest.length := by simpa using hj
      have harith : i0 + (j2 + 1) = (i0 + 1) + j2 := by omega
      constructor
      · intro hlt
        have h2 := (ih (i0 + 1) h j2 hj2).1 (by omega)
        by_cases hi0 : i0 < 10
        · simp only [peakGo, if_pos hi0]
          simpa using h2
        · simp only [peakGo, if_neg hi0]
          have h3 := (ih (i0 + 1)
            ((keys.foldl (peakKeyStep ((data.drop (i0 - 10)).take 11))
              (h, point)).1) j2 hj2).1 (by omega)
          simpa using h3
      · intro k hge hwin
        have hwin2 : (∀ w ∈ (data.drop ((i0 + 1) + j2 - 10)).take 11,
            ∀ q : ℚ, w.cols k ≠ JVal.num q) ∨ k ∉ keys := by
          rcases hwin with hw | hm
          · left
            intro w hwmem
            apply hw
            have : i0 + (j2 + 1) - 10 = (i0 + 1) + j2 - 10 := by omega
            rw [this]
            exact hwmem
          · exact Or.inr hm
        by_cases hi0 : i0 < 10
        · simp only [peakGo, if_pos hi0]
          have h2 := (ih (i0 + 1) h j2 hj2).2 k (by omega) hwin2
          simpa using h2
        · simp only [peakGo, if_neg hi0]
          have h2 := (ih (i0 + 1)
            ((keys.foldl (peakKeyStep ((data.drop (i0 - 10)).take 11))
              (h, point)).1) j2 hj2).2 k (by omega) hwin2
          simpa using h2

theorem processValues_isSome (values : List ℚ) (hv : values ≠ []) :
    ∃ w, processValues values = some w := by
  unfold processValues
  rw [if_neg hv]
  dsimp only
  split
  · exact ⟨_, rfl⟩
  · exact ⟨_, rfl⟩

theorem foldl_peakKeyStep_num (window : List Row) (k : String) :
    ∀ (ks : List String) (st : (String → Option ℚ) × Row), k ∈ ks →
      ((window.map (fun w => w.cols k)).filterMap
        (fun j => match j with
          | JVal.num q => some q
          | _ => none)) ≠ [] →
      ∃ q : ℚ, ((ks.foldl (peakKeyStep window) st).2).cols k = JVal.num q := by
  intro ks
  induction ks with
  | nil => intro st hmem _; simp at hmem
  | cons k2 ks ih =>
    intro st hmem hvals
    rw [List.foldl_cons]
    by_cases hk : k ∈ ks
    · exact ih _ hk hvals
    · have hkk : k = k2 := by
        rcases List.mem_cons.mp hmem with h | h
        · exact h
        · exact absurd h hk
      subst hkk
      rw [foldl_peakKeyStep_cols window k ks (peakKeyStep window st k)
        (Or.inr hk)]
      unfold peakKeyStep
      rw [if_neg hvals]
      obtain ⟨w, hw⟩ := processValues_isSome _ hvals
      rw [hw]
      exact ⟨_, Row.cols_set_same _ _ _⟩

theorem peakGo_num (keys : List String) (data : List Row) (k : String) :
    ∀ (l : List Row) (i0 : ℕ) (h : String → Option ℚ) (j : ℕ), j < l.length →
      10 ≤ i0 + j → k ∈ keys →
      ((((data.drop (i0 + j - 10)).take 11).map (fun w => w.cols k)).filterMap
        (fun jv => match jv with
          | JVal.num q => some q
          | _ => none)) ≠ [] →
      ∃ q : ℚ, ((peakGo keys data l i0 h).getD j default).cols k =
        JVal.num q := by
  intro l
  induction l with
  | nil => intro i0 h j hj; exact absurd hj (by simp)
  | cons point rest ih =>
    intro i0 h j hj hge hkmem hvals
    cases j with
    | zero =>
      have hi0 : ¬ i0 < 10 := by omega
      simp only [peakGo, if_neg hi0]
      have := foldl_peakKeyStep_num ((data.drop (i0 - 10)).take 11) k keys
        (h, point) hkmem (by simpa using hvals)
      simpa using this
    | succ j2 =>
      have hj2 : j2 < rest.length := by simpa using hj
      have hvals2 : ((((data.drop ((i0 + 1) + j2 - 10)).take 11).map
          (fun w => w.cols k)).filterMap
          (fun jv => match jv with
            | JVal.num q => some q
            | _ => none)) ≠ [] := by
        have harith : i0 + (j2 + 1) - 10 = (i0 + 1) + j2 - 10 := by omega
        rw [harith] at hvals
        exact hvals
      by_cases hi0 : i0 < 10
      · simp only [peakGo, if_pos hi0]
        have h2 := ih (i0 + 1) h j2 hj2 (by omega) hkmem hvals2
        simpa using h2
      · simp only [peakGo, if_neg hi0]
        have h2 := ih (i0 + 1)
          ((keys.foldl (peakKeyStep ((data.drop (i0 - 10)).take 11))
            (h, point)).1) j2 hj2 (by omega) hkmem hvals2
        simpa using h2

/-- C8 (amended): with the peak-cut filter enabled and no single selection,
the first ten rows pass through unchanged, and a key whose 11-row window
contains no numeric value - as well as any key outside the processed set -
keeps its original value, so null or missing stays null or missing there;
however, a processed key whose window does contain numeric values is
overwritten with the smoothed numeric estimate even when the row's own
value was null or missing. -/
theorem c8_peak_cut_preservation (activeCharts chartDataKey : List String)
    (data : List Row) (hmode : activeCharts.length ≠ 1) (i : ℕ) (k : String) :
    (processedData true activeCharts chartDataKey data).length = data.length ∧
    (i < 10 → i < data.length →
      (processedData true activeCharts chartDataKey data).getD i default =
        data.getD i default) ∧
    (10 ≤ i → i < data.length →
      ((∀ w ∈ (data.drop (i - 10)).take 11, ∀ q : ℚ,
          w.cols k ≠ JVal.num q) ∨
        k ∉ (if 0 < activeCharts.length then activeCharts else chartDataKey)) →
      ((processedData true activeCharts chartDataKey data).getD i
        default).cols k = (data.getD i default).cols k) ∧
    (10 ≤ i → i < data.length →
      k ∈ (if 0 < activeCharts.length then activeCharts else chartDataKey) →
      ((((data.drop (i - 10)).take 11).map (fun w => w.cols k)).filterMap
        (fun jv => match jv with
          | JVal.num q => some q
          | _ => none)) ≠ [] →
      ∃ q : ℚ, ((processedData true activeCharts chartDataKey data).getD i
        default).cols k = JVal.num q) := by
  have hunfold : processedData true activeCharts chartDataKey data =
      peakGo (if 0 < activeCharts.length then activeCharts else chartDataKey)
        data data 0 (fun _ => none) := by
    unfold processedData
    rw [if_neg hmode, if_pos rfl, if_neg hmode]
  rw [hunfold]
  refine ⟨length_peakGo _ _ _ _ _, ?_, ?_, ?_⟩
  · intro hlt hil
    exact (peakGo_getD _ data data 0 (fun _ => none) i hil).1 (by omega)
  · intro hge hil hwin
    exact (peakGo_getD _ data data 0 (fun _ => none) i hil).2 k (by omega)
      (by simpa using hwin)
  · intro hge hil hkmem hvals
    exact peakGo_num _ data k data 0 (fun _ => none) i hil (by omega) hkmem
      (by simpa using hvals)

/-- An eleven-row input for the peak-cut filter: ten numeric rows followed by
one row whose value at the key m is null. -/
def mkPeakRow (t : ℚ) (v : JVal) : Row :=
  ⟨t, fun k => if k = "m" then v else JVal.missing⟩

def c8Rows : List Row :=
  (List.range 10).map (fun i => mkPeakRow i (JVal.num 50)) ++
    [mkPeakRow 10 JVal.null]

/-- C8 counterexample: the final row's value at the key m is null in the
input, yet the peak-cut filter outputs the smoothed numeric value 50 there,
because its 11-row window holds numeric values - the filter fabricates a
value where none existed. -/
theorem c8_counterexample :
    (c8Rows.getD 10 default).cols "m" = JVal.null ∧
    ((processedData true [] ["m"] c8Rows).getD 10 default).cols "m" =
      JVal.num 50 := by
  with_unfolding_all decide

/-- C8 witness: the preservation theorem instantiated at the concrete rows,
index 5 and key m, with the non-single-selection hypothesis discharged. -/
theorem c8_witness :
    ([] : List String).length ≠ 1 ∧
    ((processedData true [] ["m"] c8Rows).length = c8Rows.length ∧
    (5 < 10 → 5 < c8Rows.length →
      (processedData true [] ["m"] c8Rows).getD 5 default =
        c8Rows.getD 5 default) ∧
    (10 ≤ 5 → 5 < c8Rows.length →
      ((∀ w ∈ (c8Rows.drop (5 - 10)).take 11, ∀ q : ℚ,
          w.cols "m" ≠ JVal.num q) ∨
        "m" ∉ (if 0 < ([] : List String).length then ([] : List String)
          else ["m"])) →
      ((processedData true [] ["m"] c8Rows).getD 5 default).cols "m" =
        (c8Rows.getD 5 default).cols "m") ∧
    (10 ≤ 5 → 5 < c8Rows.length →
      "m" ∈ (if 0 < ([] : List String).length then ([] : List String)
        else ["m"]) →
      ((((c8Rows.drop (5 - 10)).take 11).map (fun w => w.cols "m")).filterMap
        (fun jv => match jv with
          | JVal.num q => some q
          | _ => none)) ≠ [] →
      ∃ q : ℚ, ((processedData true [] ["m"] c8Rows).getD 5 default).cols "m" =
        JVal.num q)) :=
  ⟨by decide, c8_peak_cut_preservation [] ["m"] c8Rows (by decide) 5 "m"⟩
